import Mathlib

/-!
Verification of the hierarchical-indexing engine of the RAG-Txtbuk repository
(`src/hierarchical_indexing.py`): the structure-detection and hierarchy-construction
component that scans page-delimited text, recognizes chapter/section heading
patterns, maintains a current-chapter/current-section cursor, attaches content
paragraphs as leaf nodes, and serializes the resulting tree per document.

The Python source is shallowly embedded below.  Strings are modelled as
`List Char` (one entry per code point, matching Python's `len`/indexing);
the two regular expressions actually used by the builder,

  chapter: `Chapter\s+\d+[.:]\s*(.*?)(?=\n)`   (IGNORECASE)
  section: `(?<!\w)\d+\.\d+\s+(.*?)(?=\n)`

are translated as deterministic matchers with the exact backtracking
behaviour of the Python `re` engine on these patterns (greedy `\s*`/`\s+`
followed by a lazy capture bounded by a `(?=\n)` lookahead).  The character
classes `\s`, `\d`, `\w` are taken at their ASCII extent; all inputs in this
development are ASCII.  Python's mutable object graph (`node_map` holding
references aliased with `children` lists) is modelled as a flat store of
nodes keyed by `node_id`, with `children` kept as a list of child ids;
`uuid4`'s collision-free id generation is modelled by a fresh-id counter.
-/

/-! ## Character classes (ASCII extent of Python's `\s`, `\d`, `\w`) -/

def isPySpace (c : Char) : Bool :=
  c = ' ' || c = '\t' || c = '\n' || c = '\r' || c = '\x0b' || c = '\x0c'

def isPyDigit (c : Char) : Bool :=
  '0' ≤ c && c ≤ '9'

def isPyWord (c : Char) : Bool :=
  ('a' ≤ c && c ≤ 'z') || ('A' ≤ c && c ≤ 'Z') || isPyDigit c || c = '_'

/-! ## Python-style substring search and `str.split` -/

/-- If `pat` is a prefix of `cs`, return the remainder after it. -/
def dropPrefixSeq : List Char → List Char → Option (List Char)
  | [], cs => some cs
  | _ :: _, [] => none
  | p :: ps, c :: cs => if c = p then dropPrefixSeq ps cs else none

/-- Find the first occurrence of the (nonempty) separator `s0 :: sep` in `cs`:
returns the part before it and the part after it. -/
def splitFirst (s0 : Char) (sep : List Char) : List Char → Option (List Char × List Char)
  | [] => none
  | c :: cs =>
    match dropPrefixSeq (s0 :: sep) (c :: cs) with
    | some rest => some ([], rest)
    | none =>
      match splitFirst s0 sep cs with
      | some (pre, post) => some (c :: pre, post)
      | none => none

theorem dropPrefixSeq_length {ps cs r : List Char} :
    dropPrefixSeq ps cs = some r → ps.length + r.length = cs.length := by
  induction ps generalizing cs with
  | nil => intro h; simp [dropPrefixSeq] at h; simp [h]
  | cons p ps ih =>
    intro h
    cases cs with
    | nil => simp [dropPrefixSeq] at h
    | cons c cs =>
      simp only [dropPrefixSeq] at h
      split at h
      · have := ih h
        simp only [List.length_cons]
        omega
      · exact absurd h (by simp)

theorem splitFirst_post_length {s0 : Char} {sep cs pre post : List Char} :
    splitFirst s0 sep cs = some (pre, post) → post.length < cs.length := by
  induction cs generalizing pre post with
  | nil => intro h; simp [splitFirst] at h
  | cons c cs ih =>
    intro h
    simp only [splitFirst] at h
    split at h
    · rename_i rest hdrop
      have hlen := dropPrefixSeq_length hdrop
      obtain ⟨h1, h2⟩ := Prod.mk.injEq .. ▸ (Option.some.injEq _ _ ▸ h)
      subst h2
      simp only [List.length_cons] at hlen ⊢
      omega
    · split at h
      · rename_i pre' post' hrec
        obtain ⟨h1, h2⟩ := Prod.mk.injEq .. ▸ (Option.some.injEq _ _ ▸ h)
        subst h2
        have := ih hrec
        simp only [List.length_cons]
        omega
      · exact absurd h (by simp)

/-- Python `text.split(sep)` for a nonempty separator, with a fuel argument
for structural recursion.  Each round consumes at least one character of the
input (`splitFirst_post_length`), so fuel `cs.length + 1` never runs out. -/
def pySplitF (s0 : Char) (sep : List Char) : Nat → List Char → List (List Char)
  | 0, cs => [cs]
  | fuel + 1, cs =>
    match splitFirst s0 sep cs with
    | none => [cs]
    | some (pre, post) => pre :: pySplitF s0 sep fuel post

/-- Python `text.split(sep)` for a nonempty separator `s0 :: sep`. -/
def pySplit (s0 : Char) (sep : List Char) (cs : List Char) : List (List Char) :=
  pySplitF s0 sep (cs.length + 1) cs

/-- Python `text.split(sep, 1)[1] if sep in text else` nothing: the remainder
after the first occurrence of the separator, if any. -/
def afterFirst (s0 : Char) (sep : List Char) (cs : List Char) : Option (List Char) :=
  (splitFirst s0 sep cs).map (·.2)

/-- Python `str.strip()` (ASCII whitespace). -/
def pyStrip (cs : List Char) : List Char :=
  ((cs.dropWhile isPySpace).reverse.dropWhile isPySpace).reverse

/-! ## The chapter matcher: `Chapter\s+\d+[.:]\s*(.*?)(?=\n)` with IGNORECASE

`finditer` scans left to right; at a match the scan resumes at the match end
(the position of the `\n` seen by the non-consuming lookahead). -/

/-- Lazy `(.*?)(?=\n)` at the current position: capture up to the first `'\n'`
(which exists iff the match succeeds); the returned remainder starts at that
`'\n'` (the lookahead consumes nothing). -/
def uptoNewline : List Char → Option (List Char × List Char)
  | [] => none
  | c :: cs =>
    if c = '\n' then some ([], c :: cs)
    else
      match uptoNewline cs with
      | some (cap, r) => some (c :: cap, r)
      | none => none

/-- The suffix of `cs` starting at its last `'\n'`, if any. -/
def lastNlSuffix : List Char → Option (List Char)
  | [] => none
  | c :: cs =>
    match lastNlSuffix cs with
    | some s => some s
    | none => if c = '\n' then some (c :: cs) else none

/-- Greedy `\s*` followed by `(.*?)(?=\n)`, with the `re` engine's
backtracking: the whitespace run is maximal such that a `'\n'` still lies at
or after its end; if the only `'\n'`s available lie inside the run itself the
run backtracks to just before its last `'\n'` and the capture is empty. -/
def spacesThenCapture (cs : List Char) : Option (List Char × List Char) :=
  match uptoNewline (cs.drop (cs.takeWhile isPySpace).length) with
  | some (cap, r) => some (cap, r)
  | none =>
    match lastNlSuffix (cs.takeWhile isPySpace) with
    | some suf => some ([], suf ++ cs.drop (cs.takeWhile isPySpace).length)
    | none => none

/-- Greedy `\s+` followed by `(.*?)(?=\n)`: at least one whitespace char. -/
def spacesPlusThenCapture : List Char → Option (List Char × List Char)
  | [] => none
  | c :: cs => if isPySpace c then spacesThenCapture cs else none

/-- Case-insensitive literal match; returns the remainder. `ls` is lowercase. -/
def matchLowerSeq : List Char → List Char → Option (List Char)
  | [], cs => some cs
  | _ :: _, [] => none
  | l :: ls, c :: cs => if c.toLower = l then matchLowerSeq ls cs else none

/-- `\s+\d+` at the head of `r1` (both greedy; the classes are disjoint from
what follows, so maximal-munch is exact): returns the remainder. -/
def wsThenDigits (r1 : List Char) : Option (List Char) :=
  if (r1.takeWhile isPySpace).isEmpty then none
  else
    let r2 := r1.drop (r1.takeWhile isPySpace).length
    if (r2.takeWhile isPyDigit).isEmpty then none
    else some (r2.drop (r2.takeWhile isPyDigit).length)

/-- `[.:]\s*(.*?)(?=\n)` at the head of `r2`. -/
def sepThenCapture : List Char → Option (List Char × List Char)
  | [] => none
  | sep :: r3 => if sep = '.' || sep = ':' then spacesThenCapture r3 else none

/-- Match `Chapter\s+\d+[.:]\s*(.*?)(?=\n)` (IGNORECASE) at the head of `cs`:
returns the captured group and the remainder from the match end. -/
def chapterMatchAt (cs : List Char) : Option (List Char × List Char) :=
  (matchLowerSeq ['c', 'h', 'a', 'p', 't', 'e', 'r'] cs).bind fun r1 =>
    (wsThenDigits r1).bind fun r2 =>
      sepThenCapture r2

theorem uptoNewline_append_eq {cs cap r : List Char} :
    uptoNewline cs = some (cap, r) → cap ++ r = cs := by
  induction cs generalizing cap r with
  | nil => intro h; simp [uptoNewline] at h
  | cons c cs ih =>
    intro h
    simp only [uptoNewline] at h
    split at h
    · obtain ⟨h1, h2⟩ := Prod.mk.injEq .. ▸ (Option.some.injEq _ _ ▸ h)
      subst h1; subst h2
      simp
    · split at h
      · rename_i cap' r' hrec
        obtain ⟨h1, h2⟩ := Prod.mk.injEq .. ▸ (Option.some.injEq _ _ ▸ h)
        subst h1; subst h2
        have := ih hrec
        simp [this]
      · exact absurd h (by simp)

theorem uptoNewline_length {cs cap r : List Char} :
    uptoNewline cs = some (cap, r) → r.length ≤ cs.length := by
  intro h
  have := uptoNewline_append_eq h
  have : cap.length + r.length = cs.length := by
    rw [← this]; simp
  omega

theorem lastNlSuffix_length {cs suf : List Char} :
    lastNlSuffix cs = some suf → suf.length ≤ cs.length := by
  induction cs generalizing suf with
  | nil => intro h; simp [lastNlSuffix] at h
  | cons c cs ih =>
    intro h
    simp only [lastNlSuffix] at h
    split at h
    · rename_i s hs
      obtain rfl := Option.some.injEq .. ▸ h
      have := ih hs
      simp only [List.length_cons]
      omega
    · split at h
      · obtain rfl := Option.some.injEq .. ▸ h
        simp
      · exact absurd h (by simp)

theorem takeWhile_length_le (p : Char → Bool) (cs : List Char) :
    (cs.takeWhile p).length ≤ cs.length :=
  (List.takeWhile_sublist p).length_le

theorem spacesThenCapture_length {cs cap r : List Char} :
    spacesThenCapture cs = some (cap, r) → r.length ≤ cs.length := by
  intro h
  simp only [spacesThenCapture] at h
  split at h
  · rename_i cap' r' hup
    obtain ⟨h1, h2⟩ := Prod.mk.injEq .. ▸ (Option.some.injEq _ _ ▸ h)
    subst h1; subst h2
    have h3 := uptoNewline_length hup
    have h4 := List.length_drop ((cs.takeWhile isPySpace).length) cs
    omega
  · split at h
    · rename_i suf hsuf
      obtain ⟨h1, h2⟩ := Prod.mk.injEq .. ▸ (Option.some.injEq _ _ ▸ h)
      subst h1; subst h2
      have h3 := lastNlSuffix_length hsuf
      have h4 := takeWhile_length_le isPySpace cs
      have h5 := List.length_drop ((cs.takeWhile isPySpace).length) cs
      simp only [List.length_append]
      omega
    · exact absurd h (by simp)

theorem spacesPlusThenCapture_length {cs cap r : List Char} :
    spacesPlusThenCapture cs = some (cap, r) → r.length < cs.length := by
  intro h
  cases cs with
  | nil => simp [spacesPlusThenCapture] at h
  | cons c cs =>
    simp only [spacesPlusThenCapture] at h
    split at h
    · have := spacesThenCapture_length h
      simp only [List.length_cons]
      omega
    · exact absurd h (by simp)

theorem matchLowerSeq_length {ls cs r : List Char} :
    matchLowerSeq ls cs = some r → ls.length + r.length = cs.length := by
  induction ls generalizing cs with
  | nil => intro h; simp [matchLowerSeq] at h; simp [h]
  | cons l ls ih =>
    intro h
    cases cs with
    | nil => simp [matchLowerSeq] at h
    | cons c cs =>
      simp only [matchLowerSeq] at h
      split at h
      · have := ih h
        simp only [List.length_cons]
        omega
      · exact absurd h (by simp)

theorem length_pos_of_not_isEmpty {l : List Char} (h : ¬ l.isEmpty = true) : 1 ≤ l.length := by
  cases l with
  | nil => simp at h
  | cons a l => simp

theorem wsThenDigits_length {r1 r2 : List Char} :
    wsThenDigits r1 = some r2 → r2.length + 2 ≤ r1.length := by
  intro h
  simp only [wsThenDigits] at h
  split at h
  · exact absurd h (by simp)
  · rename_i hws
    split at h
    · exact absurd h (by simp)
    · rename_i hds
      obtain rfl := Option.some.injEq .. ▸ h
      have h1 := length_pos_of_not_isEmpty hws
      have h2 := length_pos_of_not_isEmpty hds
      have h0 := takeWhile_length_le isPySpace r1
      have h5 := takeWhile_length_le isPyDigit (r1.drop (r1.takeWhile isPySpace).length)
      have h3 := List.length_drop ((r1.takeWhile isPySpace).length) r1
      have h4 := List.length_drop
        (((r1.drop (r1.takeWhile isPySpace).length).takeWhile isPyDigit).length)
        (r1.drop (r1.takeWhile isPySpace).length)
      omega

theorem sepThenCapture_length {r2 cap r : List Char} :
    sepThenCapture r2 = some (cap, r) → r.length < r2.length := by
  intro h
  cases r2 with
  | nil => simp [sepThenCapture] at h
  | cons sep r3 =>
    simp only [sepThenCapture] at h
    split at h
    · have := spacesThenCapture_length h
      simp only [List.length_cons]
      omega
    · exact absurd h (by simp)

theorem chapterMatchAt_length {cs cap r : List Char} :
    chapterMatchAt cs = some (cap, r) → r.length < cs.length := by
  intro h
  simp only [chapterMatchAt, Option.bind_eq_some] at h
  obtain ⟨r1, hm, r2, hw, hsep⟩ := h
  have h1 := matchLowerSeq_length hm
  have h2 := wsThenDigits_length hw
  have h3 := sepThenCapture_length hsep
  simp only [List.length_cons] at h1
  omega

/-- Scan for the chapter pattern with fuel; each round either advances one
position or jumps to the (strictly shorter, by `chapterMatchAt_length`)
remainder of a match, so fuel `cs.length + 1` never runs out. -/
def chapterScanF : Nat → List Char → List (List Char)
  | 0, _ => []
  | _, [] => []
  | fuel + 1, c :: cs =>
    match chapterMatchAt (c :: cs) with
    | some (cap, after) => cap :: chapterScanF fuel after
    | none => chapterScanF fuel cs

/-- `re.finditer` of the chapter pattern over `cs`: the list of captured
chapter titles, left to right, non-overlapping. -/
def chapterFindAll (cs : List Char) : List (List Char) :=
  chapterScanF (cs.length + 1) cs

/-! ## The section matcher: `(?<!\w)\d+\.\d+\s+(.*?)(?=\n)` -/

/-- Match `\d+\.\d+\s+(.*?)(?=\n)` at the head of `cs` (the negative
lookbehind is handled by the scanner). -/
def sectionMatchAt (cs : List Char) : Option (List Char × List Char) :=
  if (cs.takeWhile isPyDigit).isEmpty then none
  else
    match cs.drop (cs.takeWhile isPyDigit).length with
    | [] => none
    | dot :: r2 =>
      if dot = '.' then
        if (r2.takeWhile isPyDigit).isEmpty then none
        else spacesPlusThenCapture (r2.drop (r2.takeWhile isPyDigit).length)
      else none

theorem sectionMatchAt_length {cs cap r : List Char} :
    sectionMatchAt cs = some (cap, r) → r.length < cs.length := by
  intro h
  simp only [sectionMatchAt] at h
  split at h
  · exact absurd h (by simp)
  · rename_i hds1
    split at h
    · exact absurd h (by simp)
    · rename_i dot r2 hdrop
      split at h
      · split at h
        · exact absurd h (by simp)
        · rename_i hds2
          have hsp := spacesPlusThenCapture_length h
          have h1 := length_pos_of_not_isEmpty hds1
          have h2 : (dot :: r2).length = cs.length - (cs.takeWhile isPyDigit).length := by
            rw [← hdrop]; exact List.length_drop _ _
          simp only [List.length_cons] at h2
          have h3 := List.length_drop ((r2.takeWhile isPyDigit).length) r2
          omega
      · exact absurd h (by simp)

/-- `re.finditer` scan for the section pattern, carrying the character just
before the current scan position for the `(?<!\w)` lookbehind.  After a
match the scan resumes at the match end; the character preceding it is the
last captured character (or consumed whitespace when the capture is empty,
represented by a space, which is equally a non-word character). -/
def sectionScanF : Nat → Option Char → List Char → List (List Char)
  | 0, _, _ => []
  | _, _, [] => []
  | fuel + 1, prev, c :: cs =>
    if (match prev with | none => true | some p => !(isPyWord p)) then
      match sectionMatchAt (c :: cs) with
      | some (cap, after) => cap :: sectionScanF fuel (some (cap.getLastD ' ')) after
      | none => sectionScanF fuel (some c) cs
    else
      sectionScanF fuel (some c) cs

/-- The scan over a whole page body (fuel `cs.length + 1` never runs out:
each round shrinks the input, by `sectionMatchAt_length`). -/
def sectionFindAll (cs : List Char) : List (List Char) :=
  sectionScanF (cs.length + 1) none cs

/-! ## Node model and processor state

`TextNode` carries the fields of the Python dataclass.  The mutable object
graph is flattened: `childIds` lists the `node_id`s of the children, in
insertion order (the Python `children` list holds the very objects that the
`node_map` indexes).  The `metadata` dict is always empty and never consulted
by the core algorithm, so it is omitted.  `uuid4` ids are modelled by a
counter `nextId` delivering globally fresh ids. -/

structure TextNode where
  title : String
  content : Option String
  node_type : String
  node_id : Nat
  parent_id : Option Nat
  childIds : List Nat
  page_number : List Nat
  deriving Repr, DecidableEq

/-- The `TextbookProcessor` state: `self.root` (id of the current root, if
any), `self.node_map` (as an insertion-ordered list of nodes keyed by their
`node_id` field), and the fresh-id counter. -/
structure PState where
  root : Option Nat
  nodes : List TextNode
  nextId : Nat
  deriving Repr, DecidableEq

/-- `TextbookProcessor.__init__`. -/
def initState : PState := ⟨none, [], 0⟩

/-- `self.node_map[i]` (ids are unique in every reachable state). -/
def lookupNode (ns : List TextNode) (i : Nat) : Option TextNode :=
  ns.find? (fun n => n.node_id == i)

instance decExIsSome {α : Type} (o : Option α) : Decidable (∃ x, o = some x) :=
  match o with
  | none => isFalse (by simp)
  | some a => isTrue ⟨a, rfl⟩

instance decExIsSomeAnd {α : Type} (o : Option α) (p : α → Prop) [DecidablePred p] :
    Decidable (∃ x, o = some x ∧ p x) :=
  match o with
  | none => isFalse (by simp)
  | some a =>
    if h : p a then isTrue ⟨a, rfl, h⟩
    else isFalse (by rintro ⟨x, hx, hp⟩; rw [Option.some.injEq] at hx; exact h (hx ▸ hp))

/-- `TextbookProcessor.add_node`: raises (returns `.error`) when the parent id
is absent from the node map — before any mutation — and otherwise creates the
node, appends it to the parent's children and registers it in the map,
returning the new node's id. -/
def addNode (st : PState) (parentId : Nat) (title : String) (content : Option String)
    (node_type : String) : Except String (PState × Nat) :=
  match lookupNode st.nodes parentId with
  | none => .error ("Parent node " ++ toString parentId ++ " not found")
  | some _ =>
    let nid := st.nextId
    let child : TextNode :=
      ⟨title, content, node_type, nid, some parentId, [], []⟩
    let nodes' :=
      (st.nodes.map fun n =>
        if n.node_id == parentId then { n with childIds := n.childIds ++ [nid] } else n)
      ++ [child]
    .ok ({ st with nodes := nodes', nextId := nid + 1 }, nid)

/-- `node.page_number.append(pg)` for the node with id `i`. -/
def appendPage (st : PState) (i : Nat) (pg : Nat) : PState :=
  { st with
    nodes := st.nodes.map fun n =>
      if n.node_id == i then { n with page_number := n.page_number ++ [pg] } else n }

/-! ## The hierarchy builder (`create_textbook_structure`)

The per-page `try/except` is modelled by a `Bool` abort flag: an error from
`add_node` stops the current page's processing (keeping all state mutations
made so far on that page, as the Python exception does) and the next page
continues. -/

/-- The loop over chapter matches of one page: each match adds a chapter node
under the root, appends the page number, and becomes the current chapter
(last match wins). -/
def processChapters (rootId pg : Nat) : List String → PState → Option Nat →
    PState × Option Nat × Bool
  | [], st, ch => (st, ch, false)
  | t :: ts, st, ch =>
    match addNode st rootId ("Chapter: " ++ t) none "chapter" with
    | .error _ => (st, ch, true)
    | .ok (st1, nid) => processChapters rootId pg ts (appendPage st1 nid pg) (some nid)

/-- The loop over section matches of one page (only run when a chapter is
current): each match adds a section node under the current chapter, appends
the page number, and becomes the current section. -/
def processSections (chId pg : Nat) : List String → PState → Option Nat →
    PState × Option Nat × Bool
  | [], st, sec => (st, sec, false)
  | t :: ts, st, sec =>
    match addNode st chId ("Section: " ++ t) none "section" with
    | .error _ => (st, sec, true)
    | .ok (st1, nid) => processSections chId pg ts (appendPage st1 nid pg) (some nid)

/-- The loop over the page's paragraphs (only run when a section is current):
paragraphs longer than 100 characters become leaf nodes under the current
section. -/
def processLeaves (secId pg : Nat) : List String → PState → PState × Bool
  | [], st => (st, false)
  | p :: ps, st =>
    if 100 < p.length then
      match addNode st secId ("Content from page " ++ toString pg) (some p) "leaf" with
      | .error _ => (st, true)
      | .ok (st1, nid) => processLeaves secId pg ps (appendPage st1 nid pg)
    else processLeaves secId pg ps st

/-- `page_content.split("]\n", 1)[1] if "]\n" in page_content else page_content`. -/
def pageTextOf (pageContent : List Char) : List Char :=
  match afterFirst ']' ['\n'] pageContent with
  | some r => r
  | none => pageContent

/-- `[p.strip() for p in page_text.split('\n\n') if p.strip()]`. -/
def paragraphsOf (pageText : List Char) : List (List Char) :=
  ((pySplit '\n' ['\n'] pageText).map pyStrip).filter (fun p => !p.isEmpty)

/-- The section stage of one page: run only when a chapter is current. -/
def sectionsStage (pg : Nat) (pageText : List Char) (st1 : PState)
    (ch1 sec : Option Nat) : PState × Option Nat × Bool :=
  match ch1 with
  | some chId => processSections chId pg ((sectionFindAll pageText).map String.mk) st1 sec
  | none => (st1, sec, false)

/-- The leaf stage of one page: run only when a section is current. -/
def leavesStage (pg : Nat) (pageText : List Char) (st2 : PState)
    (sec2 : Option Nat) : PState :=
  match sec2 with
  | some secId => (processLeaves secId pg ((paragraphsOf pageText).map String.mk) st2).1
  | none => st2

/-- The body of the per-page loop of `create_textbook_structure`: detect
chapters, then (when a chapter is current) sections, then (when a section is
current) attach substantial paragraphs as leaves.  Returns the new state and
the updated chapter/section cursors; an abort (caught exception) in a stage
skips the remaining stages of this page. -/
def processPage (rootId pg : Nat) (pageContent : String) (st : PState)
    (ch sec : Option Nat) : PState × Option Nat × Option Nat :=
  let pageText := pageTextOf pageContent.data
  let r1 := processChapters rootId pg ((chapterFindAll pageText).map String.mk) st ch
  if r1.2.2 then (r1.1, r1.2.1, sec)
  else
    let r2 := sectionsStage pg pageText r1.1 r1.2.1 sec
    if r2.2.2 then (r2.1, r1.2.1, r2.2.1)
    else (leavesStage pg pageText r2.1 r2.2.1, r1.2.1, r2.2.1)

/-- `for page_num, page_content in enumerate(pages[1:], 1)`. -/
def processPagesFrom (rootId : Nat) : List String → Nat → PState → Option Nat → Option Nat →
    PState
  | [], _, st, _, _ => st
  | pc :: pcs, pg, st, ch, sec =>
    let r := processPage rootId pg pc st ch sec
    processPagesFrom rootId pcs (pg + 1) r.1 r.2.1 r.2.2

/-- `TextbookProcessor.create_textbook_structure`: create and register a fresh
root (the node map is *not* cleared), split the content at `"[PAGE_"`
boundaries, and process the chunks after the first in order, numbering them
from 1.  The call to `detect_structure` in the source builds three lazy
`finditer` iterators that are never consumed and have no effect, so it is
omitted. -/
def createTextbookStructure (st : PState) (title content : String) : PState :=
  let rootId := st.nextId
  let rootNode : TextNode := ⟨title, none, "root", rootId, none, [], []⟩
  let st0 : PState := ⟨some rootId, st.nodes ++ [rootNode], rootId + 1⟩
  let pages := (pySplit '[' "PAGE_".data content.data).map String.mk
  processPagesFrom rootId pages.tail 1 st0 none none

/-! ## Serialization and the batch orchestrator -/

/-- The nested record written by `save_to_file`'s `node_to_dict` (the
`metadata` field, always the empty dict, is omitted). -/
inductive JTree where
  | node (title : String) (content : Option String) (node_type : String)
      (node_id : Nat) (parent_id : Option Nat) (page_number : List Nat)
      (children : List JTree)
  deriving Repr

/-- Recursive conversion of the ids `ids` (and, for each, its subtree) to
records.  `node_to_dict` recurses over the actual object tree; here the tree
lives in the flat store, so a depth fuel is threaded — in every reachable
state ids strictly increase from parent to child, so `ns.length` fuel always
suffices (proved below). -/
def toJTreeList (ns : List TextNode) : Nat → List Nat → Option (List JTree)
  | _, [] => some []
  | 0, _ :: _ => none
  | fuel + 1, i :: is =>
    match lookupNode ns i with
    | none => none
    | some n =>
      match toJTreeList ns fuel n.childIds with
      | none => none
      | some ts =>
        match toJTreeList ns (fuel + 1) is with
        | none => none
        | some rest =>
          some (JTree.node n.title n.content n.node_type n.node_id n.parent_id
            n.page_number ts :: rest)
termination_by fuel ids => (fuel, ids.length)

/-- One document's outcome at the orchestrator: a record written to its
output path, or a logged failure. -/
inductive DocResult where
  | saved (outPath : String) (record : JTree)
  | failed (msg : String)
  deriving Repr

def DocResult.isFailed : DocResult → Bool
  | .saved _ _ => false
  | .failed _ => true

/-- `TextbookProcessor.save_to_file`: serialize the tree under `self.root`.
A failure (no root, or a dangling child reference) surfaces as a failed
outcome, like the re-raised exception in the source. -/
def saveToFile (st : PState) (fname : String) : DocResult :=
  match st.root with
  | none => .failed ("Error saving to " ++ fname)
  | some r =>
    match toJTreeList st.nodes (st.nodes.length + 1) [r] with
    | some [t] => .saved fname t
    | _ => .failed ("Error saving to " ++ fname)

/-- `pathlib.Path(p).stem`: the final path component without its suffix; the
suffix starts at the last `'.'` only when that dot is neither the first nor
the last character of the name (CPython's rule). -/
def pathStem (p : String) : String :=
  let name := ((pySplit '/' [] p.data).getLastD [])
  let rev := name.reverse
  let after := rev.takeWhile (fun c => c ≠ '.')
  match rev.drop after.length with
  | [] => String.mk name
  | _ :: preRev =>
    if preRev.isEmpty || after.isEmpty then String.mk name
    else String.mk preRev.reverse

/-- The filesystem as seen by `extract_parse_content`: `none` models a
missing file (`FileNotFoundError`), `some` the decoded text content. -/
def FileSystem := String → Option String

/-- One iteration of the `process_textbooks` loop: load the document (a
missing file raises, caught by the per-document handler), build its tree with
the shared processor, and serialize it to `<outputDir>/<stem>_structure.json`. -/
def processTextbooksStep (fs : FileSystem) (outputDir : String) (st : PState)
    (txtPath : String) : PState × DocResult :=
  match fs txtPath with
  | none => (st, .failed ("Text file " ++ txtPath ++ " not found."))
  | some content =>
    let title := pathStem txtPath
    let st' := createTextbookStructure st title content
    (st', saveToFile st' (outputDir ++ "/" ++ title ++ "_structure.json"))

/-- `process_textbooks`: one shared `TextbookProcessor` instance drives all
documents; each document's failure is caught and logged (its `DocResult`)
and the loop continues. -/
def processTextbooks (fs : FileSystem) (outputDir : String) :
    List String → PState → PState × List DocResult
  | [], st => (st, [])
  | p :: ps, st =>
    let r := processTextbooksStep fs outputDir st p
    let rest := processTextbooks fs outputDir ps r.1
    (rest.1, r.2 :: rest.2)

/-! ## Proof infrastructure: node signatures, the composite mutation step,
and state invariants

Every mutation the builder performs after creating the root is the composite
"`add_node` + `page_number.append`" step; `stepState` is its normal form.
`nodeSig` projects the fields of a node that such a step never changes on
pre-existing nodes (everything but `childIds`). -/

structure NodeSig where
  nid : Nat
  title : String
  content : Option String
  ntype : String
  parent : Option Nat
  pages : List Nat
  deriving Repr, DecidableEq

def nodeSig (n : TextNode) : NodeSig :=
  ⟨n.node_id, n.title, n.content, n.node_type, n.parent_id, n.page_number⟩

/-- `parent.children.append(new_node)` on the store. -/
def updChild (pid nid : Nat) (n : TextNode) : TextNode :=
  if n.node_id == pid then { n with childIds := n.childIds ++ [nid] } else n

/-- Normal form of one successful `add_node` followed by the
`page_number.append(pg)` on the new node. -/
def stepState (st : PState) (pid : Nat) (ti : String) (co : Option String)
    (ty : String) (pg : Nat) : PState :=
  ⟨st.root,
   st.nodes.map (updChild pid st.nextId) ++
     [⟨ti, co, ty, st.nextId, some pid, [], [pg]⟩],
   st.nextId + 1⟩

/-- All ids in the store are below the fresh-id counter (true in every
reachable state; `uuid4` never collides). -/
def StInv (st : PState) : Prop :=
  ∀ n ∈ st.nodes, n.node_id < st.nextId

instance (st : PState) : Decidable (StInv st) := by
  unfold StInv
  infer_instance

theorem lookupNode_id {ns : List TextNode} {i : Nat} {n : TextNode}
    (h : lookupNode ns i = some n) : n.node_id = i := by
  have := List.find?_some h
  simpa using this

theorem lookupNode_mem {ns : List TextNode} {i : Nat} {n : TextNode}
    (h : lookupNode ns i = some n) : n ∈ ns :=
  List.mem_of_find?_eq_some h

@[simp] theorem updChild_node_id (pid nid : Nat) (n : TextNode) :
    (updChild pid nid n).node_id = n.node_id := by
  unfold updChild; split <;> rfl

@[simp] theorem updChild_nodeSig (pid nid : Nat) (n : TextNode) :
    nodeSig (updChild pid nid n) = nodeSig n := by
  unfold updChild nodeSig; split <;> rfl

@[simp] theorem updChild_node_type (pid nid : Nat) (n : TextNode) :
    (updChild pid nid n).node_type = n.node_type := by
  unfold updChild; split <;> rfl

@[simp] theorem updChild_parent_id (pid nid : Nat) (n : TextNode) :
    (updChild pid nid n).parent_id = n.parent_id := by
  unfold updChild; split <;> rfl

theorem addNode_ok {st : PState} {pid : Nat} {pn : TextNode}
    (h : lookupNode st.nodes pid = some pn) (ti : String) (co : Option String)
    (ty : String) :
    addNode st pid ti co ty =
      .ok (⟨st.root,
            st.nodes.map (updChild pid st.nextId) ++
              [⟨ti, co, ty, st.nextId, some pid, [], []⟩],
            st.nextId + 1⟩, st.nextId) := by
  unfold addNode updChild
  rw [h]

theorem addNode_error {st : PState} {pid : Nat}
    (h : lookupNode st.nodes pid = none) (ti : String) (co : Option String)
    (ty : String) :
    addNode st pid ti co ty = .error ("Parent node " ++ toString pid ++ " not found") := by
  unfold addNode
  rw [h]

theorem appendPage_after_add {st : PState} {pid : Nat} (hInv : StInv st)
    (ti : String) (co : Option String) (ty : String) (pg : Nat) :
    appendPage
      ⟨st.root,
       st.nodes.map (updChild pid st.nextId) ++
         [⟨ti, co, ty, st.nextId, some pid, [], []⟩],
       st.nextId + 1⟩ st.nextId pg = stepState st pid ti co ty pg := by
  unfold appendPage stepState
  simp only [PState.mk.injEq, true_and, and_true, List.map_append, List.map_map]
  congr 1
  · apply List.map_congr_left
    intro n hn
    have hlt := hInv n hn
    simp only [Function.comp_apply]
    have hb : ((updChild pid st.nextId n).node_id == st.nextId) = false := by
      simp only [updChild_node_id, beq_eq_false_iff_ne, ne_eq]
      omega
    simp only [hb, Bool.false_eq_true, if_false]
  · simp

theorem stepState_stInv {st : PState} {pid : Nat} {ti : String} {co : Option String}
    {ty : String} {pg : Nat} (hInv : StInv st) :
    StInv (stepState st pid ti co ty pg) := by
  intro n hn
  simp only [stepState, List.mem_append, List.mem_map, List.mem_singleton] at hn
  simp only [stepState]
  rcases hn with ⟨m, hm, rfl⟩ | rfl
  · have := hInv m hm
    simp only [updChild_node_id]
    omega
  · simp

theorem stepState_sig (st : PState) (pid : Nat) (ti : String) (co : Option String)
    (ty : String) (pg : Nat) :
    (stepState st pid ti co ty pg).nodes.map nodeSig =
      st.nodes.map nodeSig ++ [⟨st.nextId, ti, co, ty, some pid, [pg]⟩] := by
  simp only [stepState, List.map_append, List.map_map]
  congr 1
  apply List.map_congr_left
  intro n _
  simp [Function.comp_apply]

theorem stepState_lookup_old {st : PState} {pid j : Nat} {ti : String}
    {co : Option String} {ty : String} {pg : Nat} (hInv : StInv st)
    (hj : j ≠ st.nextId) :
    lookupNode (stepState st pid ti co ty pg).nodes j =
      (lookupNode st.nodes j).map (updChild pid st.nextId) := by
  unfold lookupNode stepState
  rw [List.find?_append, List.find?_map]
  have hfun : ((fun n => n.node_id == j) ∘ updChild pid st.nextId) = (fun n => n.node_id == j) := by
    funext n
    simp [Function.comp_apply]
  rw [hfun]
  have h2 : List.find? (fun n => n.node_id == j)
      [(⟨ti, co, ty, st.nextId, some pid, [], [pg]⟩ : TextNode)] = none := by
    rw [List.find?_eq_none]
    intro x hx
    simp only [List.mem_singleton] at hx
    subst hx
    simp
    omega
  rw [h2]
  cases lookupNode st.nodes j <;> simp [lookupNode]

theorem stepState_lookup_new {st : PState} {pid : Nat} {ti : String}
    {co : Option String} {ty : String} {pg : Nat} (hInv : StInv st) :
    lookupNode (stepState st pid ti co ty pg).nodes st.nextId =
      some ⟨ti, co, ty, st.nextId, some pid, [], [pg]⟩ := by
  unfold lookupNode stepState
  rw [List.find?_append]
  have h1 : List.find? (fun n => n.node_id == st.nextId)
      (st.nodes.map (updChild pid st.nextId)) = none := by
    rw [List.find?_eq_none]
    intro x hx
    simp only [List.mem_map] at hx
    obtain ⟨m, hm, rfl⟩ := hx
    have := hInv m hm
    simp only [updChild_node_id]
    simp
    omega
  rw [h1]
  simp

/-! ## Chains of builder mutations

After the root is created, every store mutation of
`create_textbook_structure` is a `stepState` with a parent already in the
map, a node type among chapter/section/leaf, and — for a leaf — a parent that
is a section node (the current section).  `Steps P` is the reflexive chain of
such mutations whose page numbers satisfy `P`. -/

inductive Steps (P : Nat → Prop) : PState → PState → Prop where
  | refl (s : PState) : Steps P s s
  | step {s s' : PState} {pid : Nat} {ti : String} {co : Option String} {ty : String}
      {pg : Nat} {pn : TextNode} :
      lookupNode s.nodes pid = some pn → ty ≠ "root" →
      (ty = "leaf" → pn.node_type = "section") → P pg →
      Steps P (stepState s pid ti co ty pg) s' → Steps P s s'

theorem Steps.trans {P : Nat → Prop} {s1 s2 s3 : PState}
    (h1 : Steps P s1 s2) (h2 : Steps P s2 s3) : Steps P s1 s3 := by
  induction h1 with
  | refl => exact h2
  | step hl hty hleaf hpg _ ih => exact .step hl hty hleaf hpg (ih h2)

theorem Steps.mono {P Q : Nat → Prop} {s s' : PState} (hPQ : ∀ n, P n → Q n)
    (h : Steps P s s') : Steps Q s s' := by
  induction h with
  | refl => exact .refl _
  | step hl hty hleaf hpg _ ih => exact .step hl hty hleaf (hPQ _ hpg) ih

theorem Steps.stInv {P : Nat → Prop} {s s' : PState}
    (h : Steps P s s') (hInv : StInv s) : StInv s' := by
  induction h with
  | refl => exact hInv
  | step _ _ _ _ _ ih => exact ih (stepState_stInv hInv)

theorem Steps.nextId_le {P : Nat → Prop} {s s' : PState}
    (h : Steps P s s') : s.nextId ≤ s'.nextId := by
  induction h with
  | refl => exact le_refl _
  | step _ _ _ _ _ ih =>
    refine le_trans ?_ ih
    simp only [stepState]
    omega

theorem Steps.sig {P : Nat → Prop} {s s' : PState}
    (h : Steps P s s') (hInv : StInv s) :
    ∃ tail, s'.nodes.map nodeSig = s.nodes.map nodeSig ++ tail ∧
      ∀ x ∈ tail, s.nextId ≤ x.nid ∧ x.ntype ≠ "root" ∧ ∃ pg, P pg ∧ x.pages = [pg] := by
  induction h with
  | refl => exact ⟨[], by simp⟩
  | step hl hty hleaf hpg _ ih =>
    rename_i s s' pid ti co ty pg pn _
    obtain ⟨tail, heq, htail⟩ := ih (stepState_stInv hInv)
    refine ⟨⟨s.nextId, ti, co, ty, some pid, [pg]⟩ :: tail, ?_, ?_⟩
    · rw [heq, stepState_sig]
      simp
    · intro x hx
      rw [List.mem_cons] at hx
      rcases hx with rfl | hx
      · exact ⟨le_refl _, hty, pg, hpg, rfl⟩
      · have := htail x hx
        simp only [stepState] at this
        exact ⟨by omega, this.2⟩

theorem Steps.lookup {P : Nat → Prop} {s s' : PState} {j : Nat} {n : TextNode}
    (h : Steps P s s') (hInv : StInv s) (hj : lookupNode s.nodes j = some n) :
    ∃ n', lookupNode s'.nodes j = some n' ∧ nodeSig n' = nodeSig n := by
  induction h generalizing n with
  | refl => exact ⟨n, hj, rfl⟩
  | step hl hty hleaf hpg _ ih =>
    rename_i s s' pid ti co ty pg pn _
    have hjlt : j < s.nextId := by
      have h1 := lookupNode_id hj
      have h2 := hInv n (lookupNode_mem hj)
      omega
    have hstep : lookupNode (stepState s pid ti co ty pg).nodes j =
        some (updChild pid s.nextId n) := by
      rw [stepState_lookup_old hInv (by omega)]
      rw [hj]
      rfl
    obtain ⟨n', hn', hsig⟩ := ih (stepState_stInv hInv) hstep
    exact ⟨n', hn', by rw [hsig, updChild_nodeSig]⟩

/-- Validity of a cursor: it points (if set) at a node of the stated type. -/
def CursorOk (ns : List TextNode) (ty : String) : Option Nat → Prop
  | none => True
  | some i => ∃ n, lookupNode ns i = some n ∧ n.node_type = ty

theorem Steps.cursorOk {P : Nat → Prop} {s s' : PState} {ty : String} {cur : Option Nat}
    (h : Steps P s s') (hInv : StInv s) (hc : CursorOk s.nodes ty cur) :
    CursorOk s'.nodes ty cur := by
  cases cur with
  | none => trivial
  | some i =>
    obtain ⟨n, hn, hty⟩ := hc
    obtain ⟨n', hn', hsig⟩ := h.lookup hInv hn
    refine ⟨n', hn', ?_⟩
    have : n'.node_type = n.node_type := congrArg NodeSig.ntype hsig
    rw [this, hty]

/-- The leaf-attachment invariant: every leaf's parent is a section node. -/
def leafParentOk (ns : List TextNode) (n : TextNode) : Bool :=
  (((n.parent_id.bind (lookupNode ns))).map (fun pn => pn.node_type == "section")).getD false

def LeafOk (ns : List TextNode) : Prop :=
  ∀ n ∈ ns, n.node_type = "leaf" → leafParentOk ns n = true

instance (ns : List TextNode) : Decidable (LeafOk ns) := by
  unfold LeafOk
  infer_instance

theorem leafOk_step {s : PState} {pid : Nat} {ti : String} {co : Option String}
    {ty : String} {pg : Nat} {pn : TextNode} (hInv : StInv s) (hL : LeafOk s.nodes)
    (hl : lookupNode s.nodes pid = some pn) (hleaf : ty = "leaf" → pn.node_type = "section") :
    LeafOk (stepState s pid ti co ty pg).nodes := by
  intro n hn hty
  have hmem := hn
  simp only [stepState, List.mem_append, List.mem_map, List.mem_singleton] at hmem
  rcases hmem with ⟨m, hm, rfl⟩ | rfl
  · have hmty : m.node_type = "leaf" := by rw [← updChild_node_type pid s.nextId m, hty]
    have hok := hL m hm hmty
    unfold leafParentOk at hok ⊢
    rw [updChild_parent_id]
    cases hmp : m.parent_id with
    | none => rw [hmp] at hok; exact absurd hok (by simp)
    | some pid2 =>
      rw [hmp] at hok
      simp only [Option.some_bind] at hok ⊢
      cases hlp : lookupNode s.nodes pid2 with
      | none => rw [hlp] at hok; exact absurd hok (by simp)
      | some q =>
        rw [hlp] at hok
        have hq1 := lookupNode_id hlp
        have hq2 := hInv q (lookupNode_mem hlp)
        rw [stepState_lookup_old hInv (by omega), hlp]
        simpa using hok
  · have hsec := hleaf hty
    unfold leafParentOk
    have hp1 := lookupNode_id hl
    have hp2 := hInv pn (lookupNode_mem hl)
    simp only [Option.some_bind]
    rw [stepState_lookup_old hInv (by omega), hl]
    simp [updChild_node_type, hsec]

theorem Steps.leafOk {P : Nat → Prop} {s s' : PState}
    (h : Steps P s s') (hInv : StInv s) (hL : LeafOk s.nodes) : LeafOk s'.nodes := by
  induction h with
  | refl => exact hL
  | step hl hty hleaf hpg _ ih =>
    exact ih (stepState_stInv hInv) (leafOk_step hInv hL hl hleaf)

/-- Parent/child link facts used by the serializer: every child id resolves
and is strictly larger than its parent's id (children are created after
their parents). -/
def ChildFacts (ns : List TextNode) : Prop :=
  ∀ n ∈ ns, ∀ cid ∈ n.childIds, n.node_id < cid ∧ ∃ m, lookupNode ns cid = some m

instance (ns : List TextNode) : Decidable (ChildFacts ns) := by
  unfold ChildFacts
  infer_instance

theorem childFacts_step {s : PState} {pid : Nat} {ti : String} {co : Option String}
    {ty : String} {pg : Nat} {pn : TextNode} (hInv : StInv s) (hC : ChildFacts s.nodes)
    (hl : lookupNode s.nodes pid = some pn) :
    ChildFacts (stepState s pid ti co ty pg).nodes := by
  intro n hn cid hcid
  have hmem := hn
  simp only [stepState, List.mem_append, List.mem_map, List.mem_singleton] at hmem
  rcases hmem with ⟨m, hm, rfl⟩ | rfl
  · have hcids : (updChild pid s.nextId m).childIds =
        if m.node_id == pid then m.childIds ++ [s.nextId] else m.childIds := by
      unfold updChild; split <;> simp_all
    rw [hcids] at hcid
    have hold : ∀ c ∈ m.childIds, m.node_id < c ∧
        ∃ q, lookupNode (stepState s pid ti co ty pg).nodes c = some q := by
      intro c hc
      obtain ⟨hlt, q, hq⟩ := hC m hm c hc
      have hq1 := lookupNode_id hq
      have hq2 := hInv q (lookupNode_mem hq)
      refine ⟨hlt, updChild pid s.nextId q, ?_⟩
      rw [stepState_lookup_old hInv (by omega), hq]
      rfl
    split at hcid
    · rename_i hmid
      rw [List.mem_append, List.mem_singleton] at hcid
      rcases hcid with hc | rfl
      · have := hold cid hc
        simpa [updChild_node_id] using this
      · have hmpid : m.node_id = pid := by simpa using hmid
        have hlt : m.node_id < s.nextId := hInv m hm
        refine ⟨by simpa [updChild_node_id] using hlt, ?_⟩
        exact ⟨_, stepState_lookup_new hInv⟩
    · have := hold cid hcid
      simpa [updChild_node_id] using this
  · exact absurd hcid (by simp)

theorem Steps.childFacts {P : Nat → Prop} {s s' : PState}
    (h : Steps P s s') (hInv : StInv s) (hC : ChildFacts s.nodes) : ChildFacts s'.nodes := by
  induction h with
  | refl => exact hC
  | step hl hty hleaf hpg _ ih =>
    exact ih (stepState_stInv hInv) (childFacts_step hInv hC hl)

/-! ## Specifications of the three per-page loops -/

/-- The id-independent part of a node signature. -/
def sigBody (x : NodeSig) : String × Option String × String × Option Nat × List Nat :=
  (x.title, x.content, x.ntype, x.parent, x.pages)

theorem processChapters_steps (rootId pg : Nat) :
    ∀ (titles : List String) (st : PState) (ch : Option Nat), StInv st →
      CursorOk st.nodes "chapter" ch →
      Steps (fun x => x = pg) st (processChapters rootId pg titles st ch).1 ∧
      CursorOk (processChapters rootId pg titles st ch).1.nodes "chapter"
        (processChapters rootId pg titles st ch).2.1 := by
  intro titles
  induction titles with
  | nil =>
    intro st ch hInv hch
    exact ⟨.refl st, hch⟩
  | cons t ts ih =>
    intro st ch hInv hch
    simp only [processChapters]
    cases hr : lookupNode st.nodes rootId with
    | none =>
      rw [addNode_error hr]
      exact ⟨.refl st, hch⟩
    | some rn =>
      simp only [addNode_ok hr]
      rw [appendPage_after_add hInv]
      have hInv' := @stepState_stInv _ rootId ("Chapter: " ++ t) none "chapter" pg hInv
      have hcur' : CursorOk (stepState st rootId ("Chapter: " ++ t) none "chapter" pg).nodes
          "chapter" (some st.nextId) :=
        ⟨_, stepState_lookup_new hInv, rfl⟩
      obtain ⟨hsteps, hcur⟩ := ih _ (some st.nextId) hInv' hcur'
      exact ⟨.step hr (by decide) (by intro hx; exact absurd hx (by decide)) rfl hsteps, hcur⟩

theorem processSections_steps (chId pg : Nat) :
    ∀ (titles : List String) (st : PState) (sec : Option Nat), StInv st →
      CursorOk st.nodes "section" sec →
      Steps (fun x => x = pg) st (processSections chId pg titles st sec).1 ∧
      CursorOk (processSections chId pg titles st sec).1.nodes "section"
        (processSections chId pg titles st sec).2.1 := by
  intro titles
  induction titles with
  | nil =>
    intro st sec hInv hsec
    exact ⟨.refl st, hsec⟩
  | cons t ts ih =>
    intro st sec hInv hsec
    simp only [processSections]
    cases hr : lookupNode st.nodes chId with
    | none =>
      rw [addNode_error hr]
      exact ⟨.refl st, hsec⟩
    | some cn =>
      simp only [addNode_ok hr]
      rw [appendPage_after_add hInv]
      have hInv' := @stepState_stInv _ chId ("Section: " ++ t) none "section" pg hInv
      have hcur' : CursorOk (stepState st chId ("Section: " ++ t) none "section" pg).nodes
          "section" (some st.nextId) :=
        ⟨_, stepState_lookup_new hInv, rfl⟩
      obtain ⟨hsteps, hcur⟩ := ih _ (some st.nextId) hInv' hcur'
      exact ⟨.step hr (by decide) (by intro hx; exact absurd hx (by decide)) rfl hsteps, hcur⟩

theorem processLeaves_spec (secId pg : Nat) :
    ∀ (paras : List String) (st : PState), StInv st →
      (∃ sn, lookupNode st.nodes secId = some sn ∧ sn.node_type = "section") →
      ∃ st', processLeaves secId pg paras st = (st', false) ∧
        Steps (fun x => x = pg) st st' ∧
        ∃ tail, st'.nodes.map nodeSig = st.nodes.map nodeSig ++ tail ∧
          tail.map sigBody = (paras.filter (fun p => 100 < p.length)).map
            (fun p => ("Content from page " ++ toString pg, some p, "leaf", some secId, [pg])) := by
  intro paras
  induction paras with
  | nil =>
    intro st hInv hsec
    exact ⟨st, rfl, .refl st, [], by simp, by simp⟩
  | cons p ps ih =>
    intro st hInv hsec
    obtain ⟨sn, hsn, hsnty⟩ := hsec
    simp only [processLeaves]
    by_cases hlen : 100 < p.length
    · rw [if_pos hlen]
      simp only [addNode_ok hsn]
      rw [appendPage_after_add hInv]
      have hInv' := @stepState_stInv _ secId ("Content from page " ++ toString pg) (some p) "leaf" pg hInv
      have hsn1 := lookupNode_id hsn
      have hsn2 := hInv sn (lookupNode_mem hsn)
      have hsec' : ∃ sn', lookupNode
          (stepState st secId ("Content from page " ++ toString pg) (some p) "leaf" pg).nodes
          secId = some sn' ∧ sn'.node_type = "section" := by
        refine ⟨updChild secId st.nextId sn, ?_, by simpa using hsnty⟩
        rw [stepState_lookup_old hInv (by omega), hsn]
        rfl
      obtain ⟨st', heq, hsteps, tail, hsig, hbody⟩ := ih _ hInv' hsec'
      refine ⟨st', heq, .step hsn (by decide)
        (fun _ => hsnty) rfl hsteps, ?_⟩
      refine ⟨⟨st.nextId, "Content from page " ++ toString pg, some p, "leaf", some secId, [pg]⟩
        :: tail, ?_, ?_⟩
      · rw [hsig, stepState_sig]
        simp
      · simp only [List.map_cons, hbody, List.filter_cons, hlen]
        simp [sigBody, hlen]
    · rw [if_neg hlen]
      obtain ⟨st', heq, hsteps, tail, hsig, hbody⟩ := ih st hInv ⟨sn, hsn, hsnty⟩
      refine ⟨st', heq, hsteps, tail, hsig, ?_⟩
      rw [hbody]
      simp only [List.filter_cons]
      have : ¬ (decide (100 < p.length) = true) := by simpa using hlen
      simp [this]

theorem processChapters_spec (rootId pg : Nat) :
    ∀ (titles : List String) (st : PState) (ch : Option Nat), StInv st →
      (∃ rn, lookupNode st.nodes rootId = some rn) →
      ∃ st' ch', processChapters rootId pg titles st ch = (st', ch', false) ∧
        Steps (fun x => x = pg) st st' ∧
        (titles = [] → st' = st ∧ ch' = ch) ∧
        (titles ≠ [] → ∃ cid cn t0, t0 ∈ titles ∧ ch' = some cid ∧
          lookupNode st'.nodes cid = some cn ∧ cn.node_type = "chapter" ∧
          cn.title = "Chapter: " ++ t0 ∧ cn.parent_id = some rootId) := by
  intro titles
  induction titles with
  | nil =>
    intro st ch hInv _
    exact ⟨st, ch, rfl, .refl st, fun _ => ⟨rfl, rfl⟩, fun hne => absurd rfl hne⟩
  | cons t ts ih =>
    intro st ch hInv hroot
    obtain ⟨rn, hr⟩ := hroot
    simp only [processChapters]
    simp only [addNode_ok hr]
    rw [appendPage_after_add hInv]
    have hInv' := @stepState_stInv _ rootId ("Chapter: " ++ t) none "chapter" pg hInv
    have hrlt : rootId < st.nextId := by
      have h1 := lookupNode_id hr
      have h2 := hInv rn (lookupNode_mem hr)
      omega
    have hr' : lookupNode
        (stepState st rootId ("Chapter: " ++ t) none "chapter" pg).nodes rootId =
        some (updChild rootId st.nextId rn) := by
      rw [stepState_lookup_old hInv (by omega), hr]; rfl
    obtain ⟨st', ch', heq, hsteps, hnil, hcons⟩ := ih _ (some st.nextId) hInv' ⟨_, hr'⟩
    refine ⟨st', ch', heq, .step hr (by decide)
      (by intro hx; exact absurd hx (by decide)) rfl hsteps, fun hne => by simp at hne, ?_⟩
    intro _
    cases ts with
    | nil =>
      obtain ⟨hst', hch'⟩ := hnil rfl
      subst hst'
      refine ⟨st.nextId, _, t, by simp, hch', stepState_lookup_new hInv, rfl, rfl, rfl⟩
    | cons t2 ts2 =>
      obtain ⟨cid, cn, t0, ht0, hch', hlk, h1, h2, h3⟩ := hcons (by simp)
      exact ⟨cid, cn, t0, by simp [List.mem_cons] at ht0 ⊢; tauto, hch', hlk, h1, h2, h3⟩

theorem processSections_spec (chId pg : Nat) :
    ∀ (titles : List String) (st : PState) (sec : Option Nat), StInv st →
      (∃ cn, lookupNode st.nodes chId = some cn) →
      ∃ st' sec', processSections chId pg titles st sec = (st', sec', false) ∧
        Steps (fun x => x = pg) st st' ∧
        (titles = [] → st' = st ∧ sec' = sec) ∧
        (titles ≠ [] → ∃ sid sn t0, t0 ∈ titles ∧ sec' = some sid ∧
          lookupNode st'.nodes sid = some sn ∧ sn.node_type = "section" ∧
          sn.title = "Section: " ++ t0 ∧ sn.parent_id = some chId) := by
  intro titles
  induction titles with
  | nil =>
    intro st sec hInv _
    exact ⟨st, sec, rfl, .refl st, fun _ => ⟨rfl, rfl⟩, fun hne => absurd rfl hne⟩
  | cons t ts ih =>
    intro st sec hInv hpar
    obtain ⟨cn, hr⟩ := hpar
    simp only [processSections]
    simp only [addNode_ok hr]
    rw [appendPage_after_add hInv]
    have hInv' := @stepState_stInv _ chId ("Section: " ++ t) none "section" pg hInv
    have hrlt : chId < st.nextId := by
      have h1 := lookupNode_id hr
      have h2 := hInv cn (lookupNode_mem hr)
      omega
    have hr' : lookupNode
        (stepState st chId ("Section: " ++ t) none "section" pg).nodes chId =
        some (updChild chId st.nextId cn) := by
      rw [stepState_lookup_old hInv (by omega), hr]; rfl
    obtain ⟨st', sec', heq, hsteps, hnil, hcons⟩ := ih _ (some st.nextId) hInv' ⟨_, hr'⟩
    refine ⟨st', sec', heq, .step hr (by decide)
      (by intro hx; exact absurd hx (by decide)) rfl hsteps, fun hne => by simp at hne, ?_⟩
    intro _
    cases ts with
    | nil =>
      obtain ⟨hst', hsec'⟩ := hnil rfl
      subst hst'
      refine ⟨st.nextId, _, t, by simp, hsec', stepState_lookup_new hInv, rfl, rfl, rfl⟩
    | cons t2 ts2 =>
      obtain ⟨sid, sn, t0, ht0, hsec', hlk, h1, h2, h3⟩ := hcons (by simp)
      exact ⟨sid, sn, t0, by simp [List.mem_cons] at ht0 ⊢; tauto, hsec', hlk, h1, h2, h3⟩


theorem sectionsStage_steps (pg : Nat) (pageText : List Char) (st1 : PState)
    (ch1 sec : Option Nat) (hInv : StInv st1) (hsec : CursorOk st1.nodes "section" sec) :
    Steps (fun x => x = pg) st1 (sectionsStage pg pageText st1 ch1 sec).1 ∧
    CursorOk (sectionsStage pg pageText st1 ch1 sec).1.nodes "section"
      (sectionsStage pg pageText st1 ch1 sec).2.1 := by
  cases ch1 with
  | none => exact ⟨.refl st1, hsec⟩
  | some chId =>
    simp only [sectionsStage]
    exact processSections_steps chId pg _ st1 sec hInv hsec

theorem leavesStage_steps (pg : Nat) (pageText : List Char) (st2 : PState)
    (sec2 : Option Nat) (hInv : StInv st2) (hsec : CursorOk st2.nodes "section" sec2) :
    Steps (fun x => x = pg) st2 (leavesStage pg pageText st2 sec2) := by
  cases sec2 with
  | none => exact .refl st2
  | some secId =>
    obtain ⟨sn, hsn, hsnty⟩ := hsec
    obtain ⟨st', heq, hsteps, _⟩ := processLeaves_spec secId pg
      ((paragraphsOf pageText).map String.mk) st2 hInv ⟨sn, hsn, hsnty⟩
    simpa [leavesStage, heq] using hsteps

theorem processPage_steps (rootId pg : Nat) (pc : String) (st : PState)
    (ch sec : Option Nat) (hInv : StInv st) (hch : CursorOk st.nodes "chapter" ch)
    (hsec : CursorOk st.nodes "section" sec) :
    Steps (fun x => x = pg) st (processPage rootId pg pc st ch sec).1 ∧
    CursorOk (processPage rootId pg pc st ch sec).1.nodes "chapter"
      (processPage rootId pg pc st ch sec).2.1 ∧
    CursorOk (processPage rootId pg pc st ch sec).1.nodes "section"
      (processPage rootId pg pc st ch sec).2.2 := by
  obtain ⟨h1, hcur1⟩ := processChapters_steps rootId pg
    ((chapterFindAll (pageTextOf pc.data)).map String.mk) st ch hInv hch
  have hInv1 := h1.stInv hInv
  have hsec1 := h1.cursorOk hInv hsec
  simp only [processPage]
  by_cases hab1 : (processChapters rootId pg
      ((chapterFindAll (pageTextOf pc.data)).map String.mk) st ch).2.2
  · rw [if_pos hab1]
    exact ⟨h1, hcur1, hsec1⟩
  · rw [if_neg hab1]
    obtain ⟨h2, hcur2⟩ := sectionsStage_steps pg (pageTextOf pc.data) _ _ _ hInv1 hsec1
    have hInv2 := h2.stInv hInv1
    have hch2 := h2.cursorOk hInv1 hcur1
    by_cases hab2 : (sectionsStage pg (pageTextOf pc.data)
        (processChapters rootId pg ((chapterFindAll (pageTextOf pc.data)).map String.mk)
          st ch).1
        (processChapters rootId pg ((chapterFindAll (pageTextOf pc.data)).map String.mk)
          st ch).2.1 sec).2.2
    · rw [if_pos hab2]
      exact ⟨h1.trans h2, hch2, hcur2⟩
    · rw [if_neg hab2]
      have h3 := leavesStage_steps pg (pageTextOf pc.data) _ _ hInv2 hcur2
      exact ⟨(h1.trans h2).trans h3, h3.cursorOk hInv2 hch2, h3.cursorOk hInv2 hcur2⟩

theorem processPagesFrom_steps (rootId : Nat) :
    ∀ (pcs : List String) (pg : Nat) (st : PState) (ch sec : Option Nat), StInv st →
      CursorOk st.nodes "chapter" ch → CursorOk st.nodes "section" sec →
      Steps (fun x => pg ≤ x) st (processPagesFrom rootId pcs pg st ch sec) := by
  intro pcs
  induction pcs with
  | nil =>
    intro pg st ch sec _ _ _
    exact .refl st
  | cons pc pcs ih =>
    intro pg st ch sec hInv hch hsec
    simp only [processPagesFrom]
    obtain ⟨h1, hc1, hs1⟩ := processPage_steps rootId pg pc st ch sec hInv hch hsec
    have hInv1 := h1.stInv hInv
    have h2 := ih (pg + 1) _ _ _ hInv1 hc1 hs1
    exact (h1.mono (by omega)).trans (h2.mono (by omega))

theorem Steps.root_eq {P : Nat → Prop} {s s' : PState} (h : Steps P s s') :
    s'.root = s.root := by
  induction h with
  | refl => rfl
  | step _ _ _ _ _ ih => exact ih

theorem lookup_append_of_old {ns : List TextNode} {x : TextNode} {j : Nat} {n : TextNode}
    (h : lookupNode ns j = some n) : lookupNode (ns ++ [x]) j = some n := by
  unfold lookupNode at h ⊢
  rw [List.find?_append, h]
  rfl

theorem lookup_append_fresh {ns : List TextNode} {x : TextNode}
    (h : ∀ n ∈ ns, n.node_id ≠ x.node_id) :
    lookupNode (ns ++ [x]) x.node_id = some x := by
  unfold lookupNode
  rw [List.find?_append]
  have h1 : List.find? (fun n => n.node_id == x.node_id) ns = none := by
    rw [List.find?_eq_none]
    intro m hm
    simpa using h m hm
  rw [h1]
  simp

/-- The state right after `create_textbook_structure` creates and registers
the fresh root: the previous node map is extended, never cleared. -/
def rootState (st : PState) (t : String) : PState :=
  ⟨some st.nextId, st.nodes ++ [⟨t, none, "root", st.nextId, none, [], []⟩], st.nextId + 1⟩

theorem createTextbookStructure_eq (st : PState) (t c : String) :
    createTextbookStructure st t c =
      processPagesFrom st.nextId
        (((pySplit '[' "PAGE_".data c.data).map String.mk).tail) 1
        (rootState st t) none none := rfl

theorem rootState_stInv {st : PState} (t : String) (hInv : StInv st) :
    StInv (rootState st t) := by
  intro n hn
  simp only [rootState, List.mem_append, List.mem_singleton] at hn
  simp only [rootState]
  rcases hn with hn | rfl
  · have := hInv n hn
    omega
  · simp

theorem rootState_lookup {st : PState} (t : String) (hInv : StInv st) :
    lookupNode (rootState st t).nodes st.nextId =
      some ⟨t, none, "root", st.nextId, none, [], []⟩ := by
  have h : ∀ n ∈ st.nodes, n.node_id ≠
      (⟨t, none, "root", st.nextId, none, [], []⟩ : TextNode).node_id := by
    intro n hn
    have := hInv n hn
    simp only []
    omega
  exact lookup_append_fresh h

theorem rootState_leafOk {st : PState} (t : String) (hL : LeafOk st.nodes) :
    LeafOk (rootState st t).nodes := by
  intro n hn hty
  simp only [rootState, List.mem_append, List.mem_singleton] at hn
  rcases hn with hn | rfl
  · have hok := hL n hn hty
    unfold leafParentOk at hok ⊢
    cases hmp : n.parent_id with
    | none => rw [hmp] at hok; exact absurd hok (by simp)
    | some pid2 =>
      rw [hmp] at hok
      simp only [Option.some_bind] at hok ⊢
      cases hlp : lookupNode st.nodes pid2 with
      | none => rw [hlp] at hok; exact absurd hok (by simp)
      | some q =>
        rw [hlp] at hok
        simp only [rootState]
        rw [lookup_append_of_old hlp]
        exact hok
  · exact absurd hty (by simp)

theorem rootState_childFacts {st : PState} (t : String) (hC : ChildFacts st.nodes) :
    ChildFacts (rootState st t).nodes := by
  intro n hn cid hcid
  simp only [rootState, List.mem_append, List.mem_singleton] at hn
  rcases hn with hn | rfl
  · obtain ⟨hlt, m, hm⟩ := hC n hn cid hcid
    refine ⟨hlt, m, ?_⟩
    simp only [rootState]
    exact lookup_append_of_old hm
  · exact absurd hcid (by simp)

theorem createTextbookStructure_facts (st : PState) (t c : String) (hInv : StInv st) :
    StInv (createTextbookStructure st t c) ∧
    (createTextbookStructure st t c).root = some st.nextId ∧
    st.nextId < (createTextbookStructure st t c).nextId ∧
    (∃ rn, lookupNode (createTextbookStructure st t c).nodes st.nextId = some rn ∧
      nodeSig rn = ⟨st.nextId, t, none, "root", none, []⟩) ∧
    ∃ tail, (createTextbookStructure st t c).nodes.map nodeSig =
        st.nodes.map nodeSig ++ ⟨st.nextId, t, none, "root", none, []⟩ :: tail ∧
        ∀ x ∈ tail, st.nextId + 1 ≤ x.nid ∧ x.ntype ≠ "root" ∧
          ∃ pg, 1 ≤ pg ∧ x.pages = [pg] := by
  rw [createTextbookStructure_eq]
  have hInv0 := rootState_stInv t hInv
  have hlk0 := rootState_lookup t hInv
  have hsteps := processPagesFrom_steps st.nextId
    (((pySplit '[' "PAGE_".data c.data).map String.mk).tail) 1
    (rootState st t) none none hInv0 trivial trivial
  refine ⟨hsteps.stInv hInv0, ?_, ?_, ?_, ?_⟩
  · rw [hsteps.root_eq]
    rfl
  · exact lt_of_lt_of_le (Nat.lt_succ_self st.nextId) hsteps.nextId_le
  · obtain ⟨rn, hrn, hsig⟩ := hsteps.lookup hInv0 hlk0
    exact ⟨rn, hrn, by rw [hsig]; rfl⟩
  · obtain ⟨tail, heq, htail⟩ := hsteps.sig hInv0
    refine ⟨tail, ?_, ?_⟩
    · rw [heq]
      simp [rootState, nodeSig]
    · intro x hx
      have := htail x hx
      simp only [rootState] at this
      exact this

theorem createTextbookStructure_leafOk (st : PState) (t c : String) (hInv : StInv st)
    (hL : LeafOk st.nodes) : LeafOk (createTextbookStructure st t c).nodes := by
  rw [createTextbookStructure_eq]
  have hInv0 := rootState_stInv t hInv
  exact (processPagesFrom_steps st.nextId _ 1 (rootState st t) none none hInv0
    trivial trivial).leafOk hInv0 (rootState_leafOk t hL)

theorem createTextbookStructure_childFacts (st : PState) (t c : String) (hInv : StInv st)
    (hC : ChildFacts st.nodes) : ChildFacts (createTextbookStructure st t c).nodes := by
  rw [createTextbookStructure_eq]
  have hInv0 := rootState_stInv t hInv
  exact (processPagesFrom_steps st.nextId _ 1 (rootState st t) none none hInv0
    trivial trivial).childFacts hInv0 (rootState_childFacts t hC)

/-! ## Serializer success

In every reachable state ids strictly increase from parent to child, so the
recursion of `node_to_dict` (fuelled here) always terminates successfully:
`countGe ns i` — the number of stored nodes with id at least `i` — strictly
decreases from a node to its children. -/

def countGe (ns : List TextNode) (i : Nat) : Nat :=
  (ns.filter (fun m => decide (i ≤ m.node_id))).length

theorem filter_length_mono {ns : List TextNode} {p q : TextNode → Bool}
    (himp : ∀ m ∈ ns, p m = true → q m = true) :
    (ns.filter p).length ≤ (ns.filter q).length := by
  induction ns with
  | nil => simp
  | cons a tl ih =>
    have ih' := ih (fun m hm => himp m (List.mem_cons_of_mem a hm))
    cases hp : p a with
    | true =>
      have hqa := himp a (List.mem_cons_self a tl) hp
      simp only [List.filter_cons, hp, hqa, if_true, List.length_cons]
      omega
    | false =>
      cases hqa : q a with
      | true =>
        simp only [List.filter_cons, hp, hqa, Bool.false_eq_true, if_false, if_true,
          List.length_cons]
        omega
      | false =>
        simp only [List.filter_cons, hp, hqa, Bool.false_eq_true, if_false]
        exact ih'

theorem filter_length_lt {ns : List TextNode} {p q : TextNode → Bool}
    (himp : ∀ m ∈ ns, p m = true → q m = true) {n : TextNode} (hn : n ∈ ns)
    (hq : q n = true) (hp : p n = false) :
    (ns.filter p).length < (ns.filter q).length := by
  induction ns with
  | nil => simp at hn
  | cons a tl ih =>
    have himp' : ∀ m ∈ tl, p m = true → q m = true :=
      fun m hm => himp m (List.mem_cons_of_mem a hm)
    rw [List.mem_cons] at hn
    rcases hn with rfl | hn
    · simp only [List.filter_cons, hq, hp, Bool.false_eq_true, if_false, if_true,
        List.length_cons]
      have := filter_length_mono himp'
      omega
    · have hlt := ih himp' hn
      cases hpa : p a with
      | true =>
        have hqa := himp a (List.mem_cons_self a tl) hpa
        simp only [List.filter_cons, hpa, hqa, if_true, List.length_cons]
        omega
      | false =>
        cases hqa : q a with
        | true =>
          simp only [List.filter_cons, hpa, hqa, Bool.false_eq_true, if_false, if_true,
            List.length_cons]
          omega
        | false =>
          simp only [List.filter_cons, hpa, hqa, Bool.false_eq_true, if_false]
          exact hlt

theorem countGe_pos {ns : List TextNode} {i : Nat} {n : TextNode}
    (h : lookupNode ns i = some n) : 1 ≤ countGe ns i := by
  have hmem := lookupNode_mem h
  have hid := lookupNode_id h
  unfold countGe
  have : n ∈ ns.filter (fun m => decide (i ≤ m.node_id)) := by
    rw [List.mem_filter]
    exact ⟨hmem, by simp [hid]⟩
  cases hf : ns.filter (fun m => decide (i ≤ m.node_id)) with
  | nil => rw [hf] at this; simp at this
  | cons x xs => simp

theorem countGe_le_length (ns : List TextNode) (i : Nat) :
    countGe ns i ≤ ns.length := by
  unfold countGe
  simpa using (@List.filter_sublist _ _ ns).length_le

theorem countGe_child_lt {ns : List TextNode} {i cid : Nat} {n : TextNode}
    (h : lookupNode ns i = some n) (hlt : i < cid) :
    countGe ns cid < countGe ns i := by
  unfold countGe
  refine filter_length_lt ?_ (lookupNode_mem h) ?_ ?_
  · intro m _ hm
    simp at hm ⊢
    omega
  · simp [lookupNode_id h]
  · simp [lookupNode_id h]
    omega

theorem toJTreeList_ok :
    ∀ (fuel : Nat) (ns : List TextNode) (ids : List Nat),
      ChildFacts ns →
      (∀ i ∈ ids, (∃ n, lookupNode ns i = some n) ∧ countGe ns i ≤ fuel) →
      ∃ ts, toJTreeList ns fuel ids = some ts ∧ ts.length = ids.length := by
  intro fuel
  induction fuel with
  | zero =>
    intro ns ids hCF hids
    cases ids with
    | nil => exact ⟨[], by simp [toJTreeList], rfl⟩
    | cons i is =>
      obtain ⟨⟨n, hn⟩, hcnt⟩ := hids i (List.mem_cons_self i is)
      have := countGe_pos hn
      omega
  | succ f ihf =>
    intro ns ids hCF hids
    induction ids with
    | nil => exact ⟨[], by simp [toJTreeList], rfl⟩
    | cons i is ihs =>
      obtain ⟨⟨n, hn⟩, hcnt⟩ := hids i (List.mem_cons_self i is)
      have hkids : ∀ c ∈ n.childIds, (∃ m, lookupNode ns c = some m) ∧ countGe ns c ≤ f := by
        intro c hc
        obtain ⟨hlt, m, hm⟩ := hCF n (lookupNode_mem hn) c hc
        have hcc : countGe ns c < countGe ns i := by
          have hid := lookupNode_id hn
          exact countGe_child_lt hn (hid ▸ hlt)
        exact ⟨⟨m, hm⟩, by omega⟩
      obtain ⟨ts, hts, _⟩ := ihf ns n.childIds hCF hkids
      obtain ⟨rest, hrest, hlen⟩ := ihs (fun j hj => hids j (List.mem_cons_of_mem i hj))
      refine ⟨JTree.node n.title n.content n.node_type n.node_id n.parent_id
        n.page_number ts :: rest, ?_, by simp [hlen]⟩
      simp only [toJTreeList, hn, hts, hrest]

theorem saveToFile_saved {st : PState} {r : Nat} (fname : String)
    (hroot : st.root = some r) (hlk : ∃ n, lookupNode st.nodes r = some n)
    (hC : ChildFacts st.nodes) :
    ∃ tr, saveToFile st fname = .saved fname tr := by
  have hids : ∀ i ∈ [r], (∃ n, lookupNode st.nodes i = some n) ∧
      countGe st.nodes i ≤ st.nodes.length + 1 := by
    intro i hi
    rw [List.mem_singleton] at hi
    refine ⟨hi ▸ hlk, ?_⟩
    have h1 := countGe_le_length st.nodes i
    omega
  obtain ⟨ts, hts, hlen⟩ := toJTreeList_ok (st.nodes.length + 1) st.nodes [r] hC hids
  cases ts with
  | nil => simp at hlen
  | cons t ts' =>
    cases ts' with
    | nil =>
      refine ⟨t, ?_⟩
      simp only [saveToFile, hroot, hts]
    | cons t2 ts'' => simp at hlen

theorem processTextbooksStep_facts (fs : FileSystem) (dir : String) (st : PState)
    (p : String) (hInv : StInv st) (hC : ChildFacts st.nodes) :
    StInv (processTextbooksStep fs dir st p).1 ∧
    ChildFacts (processTextbooksStep fs dir st p).1.nodes ∧
    ((fs p = none ∧ processTextbooksStep fs dir st p =
        (st, .failed ("Text file " ++ p ++ " not found."))) ∨
      (∃ c, fs p = some c ∧ ∃ tr, (processTextbooksStep fs dir st p).2 =
        .saved (dir ++ "/" ++ pathStem p ++ "_structure.json") tr)) := by
  cases hfs : fs p with
  | none =>
    have heq : processTextbooksStep fs dir st p =
        (st, .failed ("Text file " ++ p ++ " not found.")) := by
      simp [processTextbooksStep, hfs]
    rw [heq]
    exact ⟨hInv, hC, Or.inl ⟨rfl, rfl⟩⟩
  | some c =>
    simp only [processTextbooksStep, hfs]
    obtain ⟨hInv', hroot, _, hlk, _⟩ :=
      createTextbookStructure_facts st (pathStem p) c hInv
    have hC' := createTextbookStructure_childFacts st (pathStem p) c hInv hC
    refine ⟨hInv', hC', Or.inr ⟨c, rfl, ?_⟩⟩
    obtain ⟨rn, hrn, _⟩ := hlk
    exact saveToFile_saved _ hroot ⟨rn, hrn⟩ hC'

theorem processTextbooks_spec :
    ∀ (paths : List String) (fs : FileSystem) (dir : String) (st : PState),
      StInv st → ChildFacts st.nodes →
      (processTextbooks fs dir paths st).2.length = paths.length ∧
      ∀ i, i < paths.length →
        ((fs (paths.getD i "") = none →
          (processTextbooks fs dir paths st).2.getD i (.failed "") =
            .failed ("Text file " ++ paths.getD i "" ++ " not found.")) ∧
        (∀ c, fs (paths.getD i "") = some c →
          ∃ tr, (processTextbooks fs dir paths st).2.getD i (.failed "") =
            .saved (dir ++ "/" ++ pathStem (paths.getD i "") ++ "_structure.json") tr)) := by
  intro paths
  induction paths with
  | nil =>
    intro fs dir st _ _
    exact ⟨rfl, fun i hi => absurd hi (by simp)⟩
  | cons p ps ih =>
    intro fs dir st hInv hC
    obtain ⟨hInv1, hC1, hcases⟩ := processTextbooksStep_facts fs dir st p hInv hC
    obtain ⟨hlen, hrest⟩ := ih fs dir (processTextbooksStep fs dir st p).1 hInv1 hC1
    simp only [processTextbooks]
    refine ⟨by simpa using hlen, ?_⟩
    intro i hi
    cases i with
    | zero =>
      simp only [List.getD_cons_zero]
      constructor
      · intro hnone
        rcases hcases with ⟨_, heq⟩ | ⟨c, hsome, _⟩
        · rw [heq]
        · rw [hnone] at hsome; exact absurd hsome (by simp)
      · intro c hsome
        rcases hcases with ⟨hnone, _⟩ | ⟨c', hsome', tr, heq⟩
        · rw [hsome] at hnone; exact absurd hnone (by simp)
        · exact ⟨tr, heq⟩
    | succ j =>
      simp only [List.getD_cons_succ]
      exact hrest j (by simpa using hi)

theorem processChapters_sig (rootId pg : Nat) :
    ∀ (titles : List String) (st : PState) (ch : Option Nat), StInv st →
      (∃ rn, lookupNode st.nodes rootId = some rn) →
      ∃ st' ch', processChapters rootId pg titles st ch = (st', ch', false) ∧
        Steps (fun x => x = pg) st st' ∧
        ∃ tail, st'.nodes.map nodeSig = st.nodes.map nodeSig ++ tail ∧
          tail.map sigBody = titles.map
            (fun t => ("Chapter: " ++ t, none, "chapter", some rootId, [pg])) := by
  intro titles
  induction titles with
  | nil =>
    intro st ch hInv _
    exact ⟨st, ch, rfl, .refl st, [], by simp, by simp⟩
  | cons t ts ih =>
    intro st ch hInv hroot
    obtain ⟨rn, hr⟩ := hroot
    simp only [processChapters]
    simp only [addNode_ok hr]
    rw [appendPage_after_add hInv]
    have hInv' := @stepState_stInv _ rootId ("Chapter: " ++ t) none "chapter" pg hInv
    have hrlt : rootId < st.nextId := by
      have h1 := lookupNode_id hr
      have h2 := hInv rn (lookupNode_mem hr)
      omega
    have hr' : lookupNode
        (stepState st rootId ("Chapter: " ++ t) none "chapter" pg).nodes rootId =
        some (updChild rootId st.nextId rn) := by
      rw [stepState_lookup_old hInv (by omega), hr]; rfl
    obtain ⟨st', ch', heq, hsteps, tail, hsig, hbody⟩ := ih _ (some st.nextId) hInv' ⟨_, hr'⟩
    refine ⟨st', ch', heq, .step hr (by decide)
      (by intro hx; exact absurd hx (by decide)) rfl hsteps,
      ⟨st.nextId, "Chapter: " ++ t, none, "chapter", some rootId, [pg]⟩ :: tail, ?_, ?_⟩
    · rw [hsig, stepState_sig]
      simp
    · simp only [List.map_cons, hbody]
      rfl

theorem processSections_sig (chId pg : Nat) :
    ∀ (titles : List String) (st : PState) (sec : Option Nat), StInv st →
      (∃ cn, lookupNode st.nodes chId = some cn) →
      ∃ st' sec', processSections chId pg titles st sec = (st', sec', false) ∧
        Steps (fun x => x = pg) st st' ∧
        ∃ tail, st'.nodes.map nodeSig = st.nodes.map nodeSig ++ tail ∧
          tail.map sigBody = titles.map
            (fun t => ("Section: " ++ t, none, "section", some chId, [pg])) := by
  intro titles
  induction titles with
  | nil =>
    intro st sec hInv _
    exact ⟨st, sec, rfl, .refl st, [], by simp, by simp⟩
  | cons t ts ih =>
    intro st sec hInv hpar
    obtain ⟨cn, hr⟩ := hpar
    simp only [processSections]
    simp only [addNode_ok hr]
    rw [appendPage_after_add hInv]
    have hInv' := @stepState_stInv _ chId ("Section: " ++ t) none "section" pg hInv
    have hrlt : chId < st.nextId := by
      have h1 := lookupNode_id hr
      have h2 := hInv cn (lookupNode_mem hr)
      omega
    have hr' : lookupNode
        (stepState st chId ("Section: " ++ t) none "section" pg).nodes chId =
        some (updChild chId st.nextId cn) := by
      rw [stepState_lookup_old hInv (by omega), hr]; rfl
    obtain ⟨st', sec', heq, hsteps, tail, hsig, hbody⟩ := ih _ (some st.nextId) hInv' ⟨_, hr'⟩
    refine ⟨st', sec', heq, .step hr (by decide)
      (by intro hx; exact absurd hx (by decide)) rfl hsteps,
      ⟨st.nextId, "Section: " ++ t, none, "section", some chId, [pg]⟩ :: tail, ?_, ?_⟩
    · rw [hsig, stepState_sig]
      simp
    · simp only [List.map_cons, hbody]
      rfl

/-! ## Lookup anatomy of a single successful `add_node` (before the page
append), for the `add_node` contract. -/

theorem addNode_lookup_new {st : PState} {pid : Nat} (hInv : StInv st)
    (ti : String) (co : Option String) (ty : String) :
    lookupNode (st.nodes.map (updChild pid st.nextId) ++
      [⟨ti, co, ty, st.nextId, some pid, [], []⟩]) st.nextId =
      some ⟨ti, co, ty, st.nextId, some pid, [], []⟩ := by
  unfold lookupNode
  rw [List.find?_append]
  have h1 : List.find? (fun n => n.node_id == st.nextId)
      (st.nodes.map (updChild pid st.nextId)) = none := by
    rw [List.find?_eq_none]
    intro x hx
    simp only [List.mem_map] at hx
    obtain ⟨m, hm, rfl⟩ := hx
    have := hInv m hm
    simp only [updChild_node_id, beq_iff_eq]
    omega
  rw [h1]
  simp

theorem addNode_lookup_parent {st : PState} {pid : Nat} {pn : TextNode} (hInv : StInv st)
    (h : lookupNode st.nodes pid = some pn)
    (ti : String) (co : Option String) (ty : String) :
    lookupNode (st.nodes.map (updChild pid st.nextId) ++
      [⟨ti, co, ty, st.nextId, some pid, [], []⟩]) pid =
      some { pn with childIds := pn.childIds ++ [st.nextId] } := by
  have hple : pid < st.nextId := by
    have h1 := lookupNode_id h
    have h2 := hInv pn (lookupNode_mem h)
    omega
  unfold lookupNode
  rw [List.find?_append, List.find?_map]
  have hfun : ((fun n => n.node_id == pid) ∘ updChild pid st.nextId) =
      (fun n => n.node_id == pid) := by
    funext n
    simp [Function.comp_apply]
  rw [hfun]
  unfold lookupNode at h
  rw [h]
  have hid := lookupNode_id h
  have hpn : (pn.node_id == pid) = true := by simp [hid]
  simp [updChild, hpn]

theorem addNode_lookup_other {st : PState} {pid j : Nat} (hInv : StInv st)
    (hj1 : j ≠ pid) (hj2 : j ≠ st.nextId)
    (ti : String) (co : Option String) (ty : String) :
    lookupNode (st.nodes.map (updChild pid st.nextId) ++
      [⟨ti, co, ty, st.nextId, some pid, [], []⟩]) j = lookupNode st.nodes j := by
  unfold lookupNode
  rw [List.find?_append, List.find?_map]
  have hfun : ((fun n => n.node_id == j) ∘ updChild pid st.nextId) =
      (fun n => n.node_id == j) := by
    funext n
    simp [Function.comp_apply]
  rw [hfun]
  have h2 : List.find? (fun n => n.node_id == j)
      [(⟨ti, co, ty, st.nextId, some pid, [], []⟩ : TextNode)] = none := by
    rw [List.find?_eq_none]
    intro x hx
    rw [List.mem_singleton] at hx
    subst hx
    simp only [beq_iff_eq]
    exact fun hEq => hj2 hEq.symm
  rw [h2]
  cases hf : List.find? (fun n => n.node_id == j) st.nodes with
  | none => rfl
  | some m =>
    have hmid : m.node_id = j := by simpa using List.find?_some hf
    have hfalse : (m.node_id == pid) = false := by
      rw [hmid]
      simpa using hj1
    simp [updChild, hfalse]

/-! ## Splitting lemmas for page-marker analysis -/

theorem splitFirst_none {s0 : Char} {sep cs : List Char} (h : ∀ ch ∈ cs, ch ≠ s0) :
    splitFirst s0 sep cs = none := by
  induction cs with
  | nil => rfl
  | cons c cs ih =>
    have hc : c ≠ s0 := h c (List.mem_cons_self c cs)
    have hdrop : dropPrefixSeq (s0 :: sep) (c :: cs) = none := by
      simp only [dropPrefixSeq]
      rw [if_neg hc]
    simp only [splitFirst, hdrop, ih (fun x hx => h x (List.mem_cons_of_mem c hx))]

theorem pySplitF_of_none {s0 : Char} {sep cs : List Char} (fuel : Nat)
    (h : splitFirst s0 sep cs = none) : pySplitF s0 sep fuel cs = [cs] := by
  cases fuel with
  | zero => rfl
  | succ f => simp only [pySplitF, h]

theorem splitFirst_skip {s0 : Char} {sep : List Char} :
    ∀ (pre cs : List Char), (∀ ch ∈ pre, ch ≠ s0) →
      splitFirst s0 sep (pre ++ cs) =
        (splitFirst s0 sep cs).map (fun pr => (pre ++ pr.1, pr.2)) := by
  intro pre
  induction pre with
  | nil =>
    intro cs _
    simp only [List.nil_append]
    cases hs : splitFirst s0 sep cs with
    | none => simp
    | some pr => simp
  | cons c pre ih =>
    intro cs h
    have hc : c ≠ s0 := h c (List.mem_cons_self c pre)
    have hdrop : dropPrefixSeq (s0 :: sep) (c :: (pre ++ cs)) = none := by
      simp only [dropPrefixSeq]
      rw [if_neg hc]
    have ih' := ih cs (fun x hx => h x (List.mem_cons_of_mem c hx))
    show (match dropPrefixSeq (s0 :: sep) (c :: (pre ++ cs)) with
          | some rest => some (([] : List Char), rest)
          | none =>
            match splitFirst s0 sep (pre ++ cs) with
            | some (a, b) => some (c :: a, b)
            | none => none) = _
    rw [hdrop, ih']
    cases hs : splitFirst s0 sep cs with
    | none => rfl
    | some pr => rfl

theorem pySplit_page (rest : List Char) (h : ∀ ch ∈ rest, ch ≠ '[') :
    pySplit '[' "PAGE_".data ('[' :: 'P' :: 'A' :: 'G' :: 'E' :: '_' :: rest) =
      [[], rest] := by
  have h1 : splitFirst '[' "PAGE_".data ('[' :: 'P' :: 'A' :: 'G' :: 'E' :: '_' :: rest) =
      some ([], rest) := by
    have hdrop : dropPrefixSeq ('[' :: "PAGE_".data)
        ('[' :: 'P' :: 'A' :: 'G' :: 'E' :: '_' :: rest) = some rest := rfl
    simp only [splitFirst, hdrop]
  have h2 : splitFirst '[' (['P', 'A', 'G', 'E', '_'] : List Char) rest = none :=
    splitFirst_none h
  simp only [pySplit, List.length_cons, pySplitF, h1, h2]

theorem pageTextOf_marker (ds body : List Char) (hds : ∀ ch ∈ ds, ch ≠ ']') :
    pageTextOf (ds ++ ']' :: '\n' :: body) = body := by
  have h1 : splitFirst ']' ['\n'] (']' :: '\n' :: body) = some ([], body) := rfl
  have h2 := @splitFirst_skip ']' ['\n'] ds (']' :: '\n' :: body) hds
  rw [h1] at h2
  simp only [pageTextOf, afterFirst, h2]
  rfl

theorem processPage_congr {rootId pg : Nat} {pc1 pc2 : String} {st : PState}
    {ch sec : Option Nat} (h : pageTextOf pc1.data = pageTextOf pc2.data) :
    processPage rootId pg pc1 st ch sec = processPage rootId pg pc2 st ch sec := by
  simp only [processPage, h]

/-! ## The claims -/

/-- C6: in every tree produced by the builder, each node with `node_type`
"leaf" is a direct child of a section node — its `parent_id` resolves in the
node map to a node of type "section"; no leaf hangs under the root or a
chapter, and none is created while no section is current (leaves are only
attached to the current section, which is always a section node).  The
hypotheses say the builder starts from a well-formed processor state (fresh
ids; any pre-existing leaves well-attached), which holds for a fresh
processor and is preserved across documents. -/
theorem c6_leaf_always_under_section (st : PState) (t c : String) (hInv : StInv st)
    (hL : LeafOk st.nodes) :
    ∀ n ∈ (createTextbookStructure st t c).nodes, n.node_type = "leaf" →
      ∃ pid pn, n.parent_id = some pid ∧
        lookupNode (createTextbookStructure st t c).nodes pid = some pn ∧
        pn.node_type = "section" := by
  intro n hn hty
  have hok := createTextbookStructure_leafOk st t c hInv hL n hn hty
  unfold leafParentOk at hok
  cases hp : n.parent_id with
  | none => rw [hp] at hok; exact absurd hok (by simp)
  | some pid =>
    rw [hp] at hok
    simp only [Option.some_bind] at hok
    cases hlp : lookupNode (createTextbookStructure st t c).nodes pid with
    | none => rw [hlp] at hok; exact absurd hok (by simp)
    | some pn =>
      rw [hlp] at hok
      refine ⟨pid, pn, rfl, hlp, ?_⟩
      simpa using hok

set_option maxRecDepth 20000 in
/-- C6 witness: the builder run on a page with one chapter, one section and
one long paragraph satisfies the leaf-attachment property. -/
theorem c6_leaf_always_under_section_witness :
    StInv initState ∧ LeafOk initState.nodes ∧
    (∀ n ∈ (createTextbookStructure initState "Doc"
        ("[PAGE_1]\nChapter 1: A\n1.2 B\n" ++ String.mk (List.replicate 101 'z') ++ "\n")).nodes,
      n.node_type = "leaf" →
      ∃ pid pn, n.parent_id = some pid ∧
        lookupNode (createTextbookStructure initState "Doc"
          ("[PAGE_1]\nChapter 1: A\n1.2 B\n" ++ String.mk (List.replicate 101 'z') ++ "\n")).nodes
          pid = some pn ∧
        pn.node_type = "section") :=
  ⟨by decide, by decide,
    c6_leaf_always_under_section initState "Doc"
      ("[PAGE_1]\nChapter 1: A\n1.2 B\n" ++ String.mk (List.replicate 101 'z') ++ "\n")
      (by decide) (by decide)⟩

/-- C7: with a section current (the section id resolves to a section node),
running the paragraph loop creates one leaf per paragraph whose (already
stripped — `paragraphsOf` strips before the length test) length strictly
exceeds 100 characters, with exactly that paragraph as `content`, and no
leaf for any paragraph of length at most 100; in particular a 100-character
paragraph yields no leaf and a 101-character one yields exactly one. -/
theorem c7_paragraph_threshold (st : PState) (secId pg : Nat) (paras : List String)
    (hInv : StInv st)
    (hsec : ∃ sn, lookupNode st.nodes secId = some sn ∧ sn.node_type = "section") :
    ∃ st', processLeaves secId pg paras st = (st', false) ∧
      ∃ tail, st'.nodes.map nodeSig = st.nodes.map nodeSig ++ tail ∧
        tail.map sigBody = (paras.filter (fun p => 100 < p.length)).map
          (fun p => ("Content from page " ++ toString pg, some p, "leaf", some secId, [pg])) := by
  obtain ⟨st', heq, _, tail, h1, h2⟩ := processLeaves_spec secId pg paras st hInv hsec
  exact ⟨st', heq, tail, h1, h2⟩

set_option maxRecDepth 20000 in
/-- C7 witness: at a state holding a section node (id 2), a 100-character
paragraph is excluded and a 101-character one becomes the unique leaf. -/
theorem c7_paragraph_threshold_witness :
    StInv (createTextbookStructure initState "Doc" "[PAGE_1]\nChapter 1: A\n1.2 B\n") ∧
    (∃ sn, lookupNode (createTextbookStructure initState "Doc"
        "[PAGE_1]\nChapter 1: A\n1.2 B\n").nodes 2 = some sn ∧ sn.node_type = "section") ∧
    ∃ st', processLeaves 2 1
        [String.mk (List.replicate 100 'x'), String.mk (List.replicate 101 'z')]
        (createTextbookStructure initState "Doc" "[PAGE_1]\nChapter 1: A\n1.2 B\n") =
        (st', false) ∧
      ∃ tail, st'.nodes.map nodeSig =
          (createTextbookStructure initState "Doc"
            "[PAGE_1]\nChapter 1: A\n1.2 B\n").nodes.map nodeSig ++ tail ∧
        tail.map sigBody =
          ([String.mk (List.replicate 100 'x'), String.mk (List.replicate 101 'z')].filter
            (fun p => 100 < p.length)).map
            (fun p => ("Content from page " ++ toString 1, some p, "leaf", some 2, [1])) :=
  ⟨by decide, by decide,
    c7_paragraph_threshold
      (createTextbookStructure initState "Doc" "[PAGE_1]\nChapter 1: A\n1.2 B\n") 2 1
      [String.mk (List.replicate 100 'x'), String.mk (List.replicate 101 'z')]
      (by decide) (by decide)⟩

/-- C8: `add_node` with an unknown parent id raises (returns an error,
before any mutation — the model's error carries no state, mirroring that the
Python `raise` precedes every mutation, so tree and index are unchanged);
with a known parent it returns normally, appends exactly one node to that
parent's children, registers the new node in the index under the fresh id,
and leaves every other id's entry untouched. -/
theorem c8_add_node_contract (st : PState) (pid : Nat) (ti : String)
    (co : Option String) (ty : String) :
    (lookupNode st.nodes pid = none →
      addNode st pid ti co ty = .error ("Parent node " ++ toString pid ++ " not found")) ∧
    (∀ pn, lookupNode st.nodes pid = some pn → StInv st →
      addNode st pid ti co ty = .ok
        (({ root := st.root,
            nodes := st.nodes.map (updChild pid st.nextId) ++
              [⟨ti, co, ty, st.nextId, some pid, [], []⟩],
            nextId := st.nextId + 1 } : PState), st.nextId) ∧
      (st.nodes.map (updChild pid st.nextId) ++
        [(⟨ti, co, ty, st.nextId, some pid, [], []⟩ : TextNode)]).length =
        st.nodes.length + 1 ∧
      lookupNode (st.nodes.map (updChild pid st.nextId) ++
        [(⟨ti, co, ty, st.nextId, some pid, [], []⟩ : TextNode)]) st.nextId =
        some ⟨ti, co, ty, st.nextId, some pid, [], []⟩ ∧
      lookupNode (st.nodes.map (updChild pid st.nextId) ++
        [(⟨ti, co, ty, st.nextId, some pid, [], []⟩ : TextNode)]) pid =
        some { pn with childIds := pn.childIds ++ [st.nextId] } ∧
      ∀ j, j ≠ pid → j ≠ st.nextId →
        lookupNode (st.nodes.map (updChild pid st.nextId) ++
          [(⟨ti, co, ty, st.nextId, some pid, [], []⟩ : TextNode)]) j =
          lookupNode st.nodes j) := by
  constructor
  · intro h
    exact addNode_error h ti co ty
  · intro pn h hInv
    refine ⟨addNode_ok h ti co ty, by simp, addNode_lookup_new hInv ti co ty,
      addNode_lookup_parent hInv h ti co ty, fun j hj1 hj2 =>
        addNode_lookup_other hInv hj1 hj2 ti co ty⟩

/-- C8 witness: on a store holding only a root node (id 0), adding under the
absent id 5 errors, and adding under id 0 succeeds with the stated effect. -/
theorem c8_add_node_contract_witness :
    (lookupNode (rootState initState "Doc").nodes 5 = none ∧
      addNode (rootState initState "Doc") 5 "T" none "section" =
        .error ("Parent node " ++ toString 5 ++ " not found")) ∧
    (lookupNode (rootState initState "Doc").nodes 0 =
        some ⟨"Doc", none, "root", 0, none, [], []⟩ ∧ StInv (rootState initState "Doc") ∧
      addNode (rootState initState "Doc") 0 "T" none "section" = .ok
        (⟨(rootState initState "Doc").root,
          (rootState initState "Doc").nodes.map (updChild 0 1) ++
            [⟨"T", none, "section", 1, some 0, [], []⟩], 2⟩, 1)) :=
  ⟨⟨by decide, (c8_add_node_contract (rootState initState "Doc") 5 "T" none "section").1
      (by decide)⟩,
    ⟨by decide, by decide,
      ((c8_add_node_contract (rootState initState "Doc") 0 "T" none "section").2
        ⟨"Doc", none, "root", 0, none, [], []⟩ (by decide) (by decide)).1⟩⟩

/-- C10: the tree a builder run produces consists of the fresh root — whose
`page_number` list is empty — plus created chapter/section/leaf nodes each
carrying exactly one page number (appended once at the creation event; no
node ever accumulates a second page index), while all pre-existing entries
keep their signatures. -/
theorem c10_page_number_singletons (st : PState) (t c : String) (hInv : StInv st) :
    ∃ tail, (createTextbookStructure st t c).nodes.map nodeSig =
        st.nodes.map nodeSig ++ ⟨st.nextId, t, none, "root", none, []⟩ :: tail ∧
      ∀ x ∈ tail, x.ntype ≠ "root" ∧ ∃ pg, 1 ≤ pg ∧ x.pages = [pg] := by
  obtain ⟨_, _, _, _, tail, heq, htail⟩ := createTextbookStructure_facts st t c hInv
  exact ⟨tail, heq, fun x hx => ⟨(htail x hx).2.1, (htail x hx).2.2⟩⟩

set_option maxRecDepth 20000 in
/-- C10 witness: a two-page document; the root records no page, every other
node exactly one. -/
theorem c10_page_number_singletons_witness :
    StInv initState ∧
    ∃ tail, (createTextbookStructure initState "Doc"
        ("[PAGE_1]\nChapter 1: A\n1.2 B\n[PAGE_2]\nChapter 2: New\n" ++
          String.mk (List.replicate 101 'y') ++ "\n")).nodes.map nodeSig =
        initState.nodes.map nodeSig ++ ⟨0, "Doc", none, "root", none, []⟩ :: tail ∧
      ∀ x ∈ tail, x.ntype ≠ "root" ∧ ∃ pg, 1 ≤ pg ∧ x.pages = [pg] :=
  ⟨by decide,
    c10_page_number_singletons initState "Doc"
      ("[PAGE_1]\nChapter 1: A\n1.2 B\n[PAGE_2]\nChapter 2: New\n" ++
        String.mk (List.replicate 101 'y') ++ "\n") (by decide)⟩

set_option maxRecDepth 40000 in
/-- C1 counterexample: on the scenario input the builder does **not** produce
a four-node tree — the produced tree has exactly two nodes (root and
chapter).  The section line "1. Overview" is not matched by the section
pattern the builder actually runs (`(?<!\w)\d+\.\d+\s+(.*?)(?=\n)`), so no
section node and hence no leaf node is created. -/
theorem c1_single_chapter_scenario_counterexample :
    ¬ ((createTextbookStructure initState "Doc"
      "[PAGE_1]\nChapter 1: Intro\n1. Overview\nThis is a long enough paragraph that exceeds one hundred characters in total length to qualify as a leaf node under the rules described above.\n").nodes.length = 4) := by
  decide

set_option maxRecDepth 40000 in
/-- C1 amended: on the scenario input the builder produces a tree of exactly
two nodes — the root (titled with the document title, no pages) and one
chapter child "Chapter: Intro" with page_number [1]; no section or leaf node
is produced, because the builder's live section pattern requires two
dot-separated numerals ("1.2 Title"-style), which "1. Overview" does not
match. -/
theorem c1_single_chapter_scenario_amended :
    (createTextbookStructure initState "Doc"
      "[PAGE_1]\nChapter 1: Intro\n1. Overview\nThis is a long enough paragraph that exceeds one hundred characters in total length to qualify as a leaf node under the rules described above.\n").nodes =
    [⟨"Doc", none, "root", 0, none, [1], []⟩,
     ⟨"Chapter: Intro", none, "chapter", 1, some 0, [], [1]⟩] := by
  decide

set_option maxRecDepth 40000 in
/-- C2 counterexample: a line "1. Title" (numeral, single dot, free text) is
**not** detected as a section heading: with a chapter current, the page body
"Chapter 1: A\n1. Title\n" yields no section node at all. -/
theorem c2_section_pattern_counterexample :
    (createTextbookStructure initState "Doc"
      "[PAGE_1]\nChapter 1: A\n1. Title\n").nodes.map TextNode.node_type =
      ["root", "chapter"] ∧
    ((createTextbookStructure initState "Doc"
      "[PAGE_1]\nChapter 1: A\n1. Title\n").nodes.filter
        (fun n => n.node_type == "section")) = [] := by
  constructor
  · decide
  · decide

/-- C2 amended: the section pattern the builder runs is
`(?<!\w)\d+\.\d+\s+(.*?)(?=\n)` — numeral, dot, numeral, whitespace, then
free text up to end of line, not preceded by a word character — so
"1. Title" is not detected while "1.2 Title" is (captured title "Title"),
and, when a chapter is current, every detected heading yields a section node
titled "Section: <captured-title>" as a child of the current chapter (with
the page number appended).  The pattern of the unused `detect_structure`
helper (`\b\d+\.\s+.*`) would match "1. Title", but its results are never
consumed. -/
theorem c2_section_pattern_amended :
    sectionFindAll "1. Title\n".data = [] ∧
    sectionFindAll "1.2 Title\n".data = ["Title".data] ∧
    ∀ (st : PState) (chId pg : Nat) (titles : List String) (sec : Option Nat),
      StInv st → (∃ cn, lookupNode st.nodes chId = some cn) →
      ∃ st' sec', processSections chId pg titles st sec = (st', sec', false) ∧
        ∃ tail, st'.nodes.map nodeSig = st.nodes.map nodeSig ++ tail ∧
          tail.map sigBody = titles.map
            (fun t => ("Section: " ++ t, none, "section", some chId, [pg])) := by
  refine ⟨by decide, by decide, ?_⟩
  intro st chId pg titles sec hInv hcn
  obtain ⟨st', sec', heq, _, tail, h1, h2⟩ :=
    processSections_sig chId pg titles st sec hInv hcn
  exact ⟨st', sec', heq, tail, h1, h2⟩

set_option maxRecDepth 40000 in
/-- C2 amended witness: instantiating the node-creation part at a store
holding a chapter node (id 1) and a single detected title "Title". -/
theorem c2_section_pattern_amended_witness :
    StInv (createTextbookStructure initState "Doc" "[PAGE_1]\nChapter 1: A\n") ∧
    (∃ cn, lookupNode (createTextbookStructure initState "Doc"
      "[PAGE_1]\nChapter 1: A\n").nodes 1 = some cn) ∧
    ∃ st' sec', processSections 1 1 ["Title"]
        (createTextbookStructure initState "Doc" "[PAGE_1]\nChapter 1: A\n") none =
        (st', sec', false) ∧
      ∃ tail, st'.nodes.map nodeSig =
          (createTextbookStructure initState "Doc"
            "[PAGE_1]\nChapter 1: A\n").nodes.map nodeSig ++ tail ∧
        tail.map sigBody = [("Section: " ++ "Title", none, "section", some 1, [1])] :=
  ⟨by decide, by decide,
    c2_section_pattern_amended.2.2
      (createTextbookStructure initState "Doc" "[PAGE_1]\nChapter 1: A\n") 1 1
      ["Title"] none (by decide) (by decide)⟩

set_option maxRecDepth 40000 in
/-- C4 counterexample: the integer embedded in the page marker is ignored.
On "[PAGE_7]\nChapter 1: A\n" the created chapter node records page_number
[1] (the positional index of the chunk), not [7] as the claim requires. -/
theorem c4_marker_number_counterexample :
    (createTextbookStructure initState "Doc"
      "[PAGE_7]\nChapter 1: A\n").nodes.map nodeSig =
      [⟨0, "Doc", none, "root", none, []⟩,
       ⟨1, "Chapter: A", none, "chapter", some 0, [1]⟩] ∧
    ¬ ∃ n ∈ (createTextbookStructure initState "Doc"
      "[PAGE_7]\nChapter 1: A\n").nodes, n.page_number = [7] := by
  constructor
  · decide
  · decide

/-- C4 amended: the page number recorded on created nodes is the 1-based
*position* of the page chunk among the `"[PAGE_"` splits; the integer
embedded in the marker is discarded (everything up to the first `"]\n"` is
stripped).  For a single-marker document: the run is identical whatever
digits stand in the marker, and every created non-root node records page
number 1. -/
theorem c4_page_number_positional (st : PState) (t : String) (ds body : List Char)
    (hInv : StInv st)
    (hds : ∀ ch ∈ ds, ch ≠ '[' ∧ ch ≠ ']')
    (hbody : ∀ ch ∈ body, ch ≠ '[') :
    createTextbookStructure st t
        (String.mk ('[' :: 'P' :: 'A' :: 'G' :: 'E' :: '_' :: (ds ++ ']' :: '\n' :: body))) =
      createTextbookStructure st t
        (String.mk ('[' :: 'P' :: 'A' :: 'G' :: 'E' :: '_' :: '1' :: ']' :: '\n' :: body)) ∧
    ∃ tail, (createTextbookStructure st t
        (String.mk ('[' :: 'P' :: 'A' :: 'G' :: 'E' :: '_' :: (ds ++ ']' :: '\n' :: body)))).nodes.map
          nodeSig =
        st.nodes.map nodeSig ++ ⟨st.nextId, t, none, "root", none, []⟩ :: tail ∧
      ∀ x ∈ tail, x.pages = [1] := by
  have hrest1 : ∀ ch ∈ ds ++ ']' :: '\n' :: body, ch ≠ '[' := by
    intro ch hch
    rw [List.mem_append] at hch
    rcases hch with h | h
    · exact (hds ch h).1
    · rw [List.mem_cons] at h
      rcases h with rfl | h
      · decide
      · rw [List.mem_cons] at h
        rcases h with rfl | h
        · decide
        · exact hbody ch h
  have hrest2 : ∀ ch ∈ ('1' : Char) :: ']' :: '\n' :: body, ch ≠ '[' := by
    intro ch hch
    rw [List.mem_cons] at hch
    rcases hch with rfl | hch
    · decide
    · rw [List.mem_cons] at hch
      rcases hch with rfl | hch
      · decide
      · rw [List.mem_cons] at hch
        rcases hch with rfl | hch
        · decide
        · exact hbody ch hch
  have hsplit1 := pySplit_page (ds ++ ']' :: '\n' :: body) hrest1
  have hsplit2 := pySplit_page ('1' :: ']' :: '\n' :: body) hrest2
  have hpt1 : pageTextOf (String.mk (ds ++ ']' :: '\n' :: body)).data = body :=
    pageTextOf_marker ds body (fun ch hch => (hds ch hch).2)
  have hpt2 : pageTextOf (String.mk ('1' :: ']' :: '\n' :: body)).data = body := by
    show pageTextOf (('1' : Char) :: ']' :: '\n' :: body) = body
    have h1 : ∀ ch ∈ (['1'] : List Char), ch ≠ ']' := by
      intro ch hch
      rw [List.mem_singleton] at hch
      subst hch
      decide
    exact pageTextOf_marker ['1'] body h1
  have hcongr : processPage st.nextId 1 (String.mk (ds ++ ']' :: '\n' :: body))
      (rootState st t) none none =
      processPage st.nextId 1 (String.mk ('1' :: ']' :: '\n' :: body))
      (rootState st t) none none :=
    processPage_congr (hpt1.trans hpt2.symm)
  constructor
  · rw [createTextbookStructure_eq, createTextbookStructure_eq]
    show processPagesFrom st.nextId
        ((pySplit '[' "PAGE_".data
          ('[' :: 'P' :: 'A' :: 'G' :: 'E' :: '_' :: (ds ++ ']' :: '\n' :: body))).map
            String.mk).tail 1 (rootState st t) none none =
      processPagesFrom st.nextId
        ((pySplit '[' "PAGE_".data
          ('[' :: 'P' :: 'A' :: 'G' :: 'E' :: '_' :: '1' :: ']' :: '\n' :: body)).map
            String.mk).tail 1 (rootState st t) none none
    rw [hsplit1, hsplit2]
    simp only [List.map_cons, List.map_nil, List.tail_cons, processPagesFrom]
    rw [hcongr]
  · rw [createTextbookStructure_eq]
    have hd : (String.mk ('[' :: 'P' :: 'A' :: 'G' :: 'E' :: '_' ::
        (ds ++ ']' :: '\n' :: body))).data =
        '[' :: 'P' :: 'A' :: 'G' :: 'E' :: '_' :: (ds ++ ']' :: '\n' :: body) := rfl
    rw [hd, hsplit1]
    simp only [List.map_cons, List.map_nil, List.tail_cons, processPagesFrom]
    have hInv0 := rootState_stInv t hInv
    obtain ⟨hsteps, _, _⟩ := processPage_steps st.nextId 1
      (String.mk (ds ++ ']' :: '\n' :: body)) (rootState st t) none none hInv0
      trivial trivial
    obtain ⟨tail, heq, htail⟩ := hsteps.sig hInv0
    refine ⟨tail, ?_, ?_⟩
    · rw [heq]
      simp [rootState, nodeSig]
    · intro x hx
      obtain ⟨_, _, pg, hpg, hpages⟩ := htail x hx
      rw [hpages, hpg]

set_option maxRecDepth 40000 in
/-- C4 amended witness: marker digits "7" and "1" give identical runs, and
the chapter created on the single page records page 1. -/
theorem c4_page_number_positional_witness :
    StInv initState ∧
    (∀ ch ∈ ("7".data : List Char), ch ≠ '[' ∧ ch ≠ ']') ∧
    (∀ ch ∈ ("Chapter 1: A\n".data : List Char), ch ≠ '[') ∧
    (createTextbookStructure initState "Doc"
        (String.mk ('[' :: 'P' :: 'A' :: 'G' :: 'E' :: '_' ::
          ("7".data ++ ']' :: '\n' :: "Chapter 1: A\n".data))) =
      createTextbookStructure initState "Doc"
        (String.mk ('[' :: 'P' :: 'A' :: 'G' :: 'E' :: '_' :: '1' :: ']' :: '\n' ::
          "Chapter 1: A\n".data)) ∧
    ∃ tail, (createTextbookStructure initState "Doc"
        (String.mk ('[' :: 'P' :: 'A' :: 'G' :: 'E' :: '_' ::
          ("7".data ++ ']' :: '\n' :: "Chapter 1: A\n".data)))).nodes.map nodeSig =
        initState.nodes.map nodeSig ++ ⟨0, "Doc", none, "root", none, []⟩ :: tail ∧
      ∀ x ∈ tail, x.pages = [1]) :=
  ⟨by decide, by decide, by decide,
    c4_page_number_positional initState "Doc" "7".data "Chapter 1: A\n".data
      (by decide) (by decide) (by decide)⟩

set_option maxRecDepth 40000 in
/-- C3 counterexample: one `TextbookProcessor` instance is shared by the
whole batch and its `node_map` is never cleared: the state with which the
second document is processed (the state after the first document) has a
non-empty node index, contradicting "a fresh (empty) node index" per
document.  The second conjunct exhibits (definitionally) that the batch
threads exactly this state into the second document. -/
theorem c3_fresh_state_counterexample :
    (processTextbooksStep
        (fun p => if p = "a.txt" || p = "b.txt" then some "[PAGE_1]\nChapter 1: A\n"
          else none) "out" initState "a.txt").1.nodes ≠ [] ∧
    processTextbooks
        (fun p => if p = "a.txt" || p = "b.txt" then some "[PAGE_1]\nChapter 1: A\n"
          else none) "out" ["a.txt", "b.txt"] initState =
      ((processTextbooksStep
          (fun p => if p = "a.txt" || p = "b.txt" then some "[PAGE_1]\nChapter 1: A\n"
            else none) "out"
          (processTextbooksStep
            (fun p => if p = "a.txt" || p = "b.txt" then some "[PAGE_1]\nChapter 1: A\n"
              else none) "out" initState "a.txt").1 "b.txt").1,
        [(processTextbooksStep
          (fun p => if p = "a.txt" || p = "b.txt" then some "[PAGE_1]\nChapter 1: A\n"
            else none) "out" initState "a.txt").2,
         (processTextbooksStep
          (fun p => if p = "a.txt" || p = "b.txt" then some "[PAGE_1]\nChapter 1: A\n"
            else none) "out"
          (processTextbooksStep
            (fun p => if p = "a.txt" || p = "b.txt" then some "[PAGE_1]\nChapter 1: A\n"
              else none) "out" initState "a.txt").1 "b.txt").2]) := by
  constructor
  · decide
  · rfl

/-- C3 amended: per document the builder does create a fresh root (id equal
to the processor's current fresh-id counter, distinct from every existing
node id) and processes pages starting from unset chapter/section cursors
(first conjunct, definitional); but the node index is *not* reset between
documents: every pre-existing entry keeps an entry with the same signature
in the resulting index, so the index accumulates across the batch.  The
produced trees nevertheless do not interfere, since ids stay globally
fresh. -/
theorem c3_fresh_root_shared_index_amended (st : PState) (t c : String)
    (hInv : StInv st) :
    createTextbookStructure st t c =
      processPagesFrom st.nextId (((pySplit '[' "PAGE_".data c.data).map String.mk).tail) 1
        (rootState st t) none none ∧
    (createTextbookStructure st t c).root = some st.nextId ∧
    (∀ n ∈ st.nodes, n.node_id ≠ st.nextId) ∧
    (∃ rn, lookupNode (createTextbookStructure st t c).nodes st.nextId = some rn ∧
      nodeSig rn = ⟨st.nextId, t, none, "root", none, []⟩) ∧
    ∀ n ∈ st.nodes, ∃ n' ∈ (createTextbookStructure st t c).nodes,
      nodeSig n' = nodeSig n := by
  obtain ⟨hInv', hroot, hlt, hlk, tail, heq, htail⟩ :=
    createTextbookStructure_facts st t c hInv
  refine ⟨rfl, hroot, fun n hn => by have := hInv n hn; omega, hlk, ?_⟩
  intro n hn
  have hmem : nodeSig n ∈ (createTextbookStructure st t c).nodes.map nodeSig := by
    rw [heq]
    exact List.mem_append_left _ (List.mem_map_of_mem _ hn)
  obtain ⟨n', hn', hsig⟩ := List.mem_map.mp hmem
  exact ⟨n', hn', hsig⟩

set_option maxRecDepth 40000 in
/-- C3 amended witness: the second document of a batch starts from the first
document's populated index; its root is fresh and the old entries persist. -/
theorem c3_fresh_root_shared_index_amended_witness :
    StInv (createTextbookStructure initState "a" "[PAGE_1]\nChapter 1: A\n") ∧
    ((createTextbookStructure (createTextbookStructure initState "a"
        "[PAGE_1]\nChapter 1: A\n") "b" "[PAGE_1]\nChapter 1: B\n") =
      processPagesFrom (createTextbookStructure initState "a"
          "[PAGE_1]\nChapter 1: A\n").nextId
        (((pySplit '[' "PAGE_".data ("[PAGE_1]\nChapter 1: B\n" : String).data).map
          String.mk).tail) 1
        (rootState (createTextbookStructure initState "a" "[PAGE_1]\nChapter 1: A\n") "b")
        none none ∧
    (createTextbookStructure (createTextbookStructure initState "a"
        "[PAGE_1]\nChapter 1: A\n") "b" "[PAGE_1]\nChapter 1: B\n").root =
      some (createTextbookStructure initState "a" "[PAGE_1]\nChapter 1: A\n").nextId ∧
    (∀ n ∈ (createTextbookStructure initState "a" "[PAGE_1]\nChapter 1: A\n").nodes,
      n.node_id ≠ (createTextbookStructure initState "a" "[PAGE_1]\nChapter 1: A\n").nextId) ∧
    (∃ rn, lookupNode (createTextbookStructure (createTextbookStructure initState "a"
        "[PAGE_1]\nChapter 1: A\n") "b" "[PAGE_1]\nChapter 1: B\n").nodes
        (createTextbookStructure initState "a" "[PAGE_1]\nChapter 1: A\n").nextId =
        some rn ∧
      nodeSig rn = ⟨(createTextbookStructure initState "a"
        "[PAGE_1]\nChapter 1: A\n").nextId, "b", none, "root", none, []⟩) ∧
    ∀ n ∈ (createTextbookStructure initState "a" "[PAGE_1]\nChapter 1: A\n").nodes,
      ∃ n' ∈ (createTextbookStructure (createTextbookStructure initState "a"
        "[PAGE_1]\nChapter 1: A\n") "b" "[PAGE_1]\nChapter 1: B\n").nodes,
        nodeSig n' = nodeSig n) :=
  ⟨by decide,
    c3_fresh_root_shared_index_amended
      (createTextbookStructure initState "a" "[PAGE_1]\nChapter 1: A\n") "b"
      "[PAGE_1]\nChapter 1: B\n" (by decide)⟩

/-- C5: detecting a new chapter does not clear the section cursor.  If a
section `s` is current and a page's body contains chapter matches but no
section match, the section cursor stays `some s` after the page, and the
page's qualifying paragraphs (stripped length > 100) all become leaves with
parent exactly `s` — the stale section of the prior chapter — one leaf per
qualifying paragraph, in order, and no other leaf is created. -/
theorem c5_stale_section_carryover (st : PState) (rootId pg s : Nat) (pc : String)
    (ch : Option Nat) (hInv : StInv st)
    (hroot : ∃ rn, lookupNode st.nodes rootId = some rn)
    (hsec : ∃ sn, lookupNode st.nodes s = some sn ∧ sn.node_type = "section")
    (hch : chapterFindAll (pageTextOf pc.data) ≠ [])
    (hnos : sectionFindAll (pageTextOf pc.data) = []) :
    (processPage rootId pg pc st ch (some s)).2.2 = some s ∧
    ∃ tail, (processPage rootId pg pc st ch (some s)).1.nodes.map nodeSig =
        st.nodes.map nodeSig ++ tail ∧
      (tail.filter (fun x => x.ntype == "leaf")).map sigBody =
        (((paragraphsOf (pageTextOf pc.data)).map String.mk).filter
          (fun p => 100 < p.length)).map
          (fun p => ("Content from page " ++ toString pg, some p, "leaf", some s, [pg])) := by
  obtain ⟨stA, chA, heq1, hsteps1, tailC, hsigC, hbodyC⟩ :=
    processChapters_sig rootId pg ((chapterFindAll (pageTextOf pc.data)).map String.mk)
      st ch hInv hroot
  obtain ⟨stB, chB, heq2, hB1, hB2, hcons⟩ :=
    processChapters_spec rootId pg ((chapterFindAll (pageTextOf pc.data)).map String.mk)
      st ch hInv hroot
  have hinj := heq2.symm.trans heq1
  simp only [Prod.mk.injEq] at hinj
  obtain ⟨hst_eq, hch_eq, -⟩ := hinj
  rw [hst_eq, hch_eq] at hcons
  have hTne : ((chapterFindAll (pageTextOf pc.data)).map String.mk) ≠ [] := by
    intro hx
    exact hch (List.map_eq_nil_iff.mp hx)
  obtain ⟨cid, cn, t0, ht0, hch1, hlkc, hcnty, hcntit, hcnpar⟩ := hcons hTne
  have hInv1 : StInv stA := hsteps1.stInv hInv
  obtain ⟨sn, hsn, hsnty⟩ := hsec
  obtain ⟨sn1, hsn1, hsig_sn⟩ := hsteps1.lookup hInv hsn
  have hsn1ty : sn1.node_type = "section" := by
    have h1 : (nodeSig sn1).ntype = (nodeSig sn).ntype := congrArg NodeSig.ntype hsig_sn
    simp only [nodeSig] at h1
    rw [h1, hsnty]
  obtain ⟨st2, heqL, hstepsL, tailL, hsigL, hbodyL⟩ :=
    processLeaves_spec s pg ((paragraphsOf (pageTextOf pc.data)).map String.mk) stA
      hInv1 ⟨sn1, hsn1, hsn1ty⟩
  have hCty : ∀ x ∈ tailC, x.ntype = "chapter" := by
    intro x hx
    have h1 : sigBody x ∈ tailC.map sigBody := List.mem_map_of_mem _ hx
    rw [hbodyC] at h1
    obtain ⟨a, _, hEq⟩ := List.mem_map.mp h1
    have h2 := congrArg (fun b => b.2.2.1) hEq
    simpa [sigBody] using h2.symm
  have hLty : ∀ x ∈ tailL, x.ntype = "leaf" := by
    intro x hx
    have h1 : sigBody x ∈ tailL.map sigBody := List.mem_map_of_mem _ hx
    rw [hbodyL] at h1
    obtain ⟨a, _, hEq⟩ := List.mem_map.mp h1
    have h2 := congrArg (fun b => b.2.2.1) hEq
    simpa [sigBody] using h2.symm
  have hred : processPage rootId pg pc st ch (some s) = (st2, some cid, some s) := by
    simp only [processPage, heq1, hch1, Bool.false_eq_true, if_false]
    simp only [sectionsStage, hnos, List.map_nil, processSections]
    simp only [Bool.false_eq_true, if_false, leavesStage, heqL]
  rw [hred]
  refine ⟨rfl, tailC ++ tailL, ?_, ?_⟩
  · show st2.nodes.map nodeSig = st.nodes.map nodeSig ++ (tailC ++ tailL)
    rw [hsigL, hsigC, List.append_assoc]
  · rw [List.filter_append]
    have hCnil : tailC.filter (fun x => x.ntype == "leaf") = [] := by
      rw [List.filter_eq_nil_iff]
      intro a ha
      rw [hCty a ha]
      decide
    have hLall : tailL.filter (fun x => x.ntype == "leaf") = tailL := by
      rw [List.filter_eq_self]
      intro a ha
      rw [hLty a ha]
      decide
    rw [hCnil, hLall, List.nil_append, hbodyL]

set_option maxRecDepth 60000 in
/-- C5 witness: after page 1 sets chapter "A" and section "B" (section id 2),
a second page that introduces "Chapter 2: New" but no section still attaches
its 101-character-plus paragraph as a leaf under the stale section 2. -/
theorem c5_stale_section_carryover_witness :
    StInv (createTextbookStructure initState "Doc" "[PAGE_1]\nChapter 1: A\n1.2 B\n") ∧
    (∃ rn, lookupNode (createTextbookStructure initState "Doc"
      "[PAGE_1]\nChapter 1: A\n1.2 B\n").nodes 0 = some rn) ∧
    (∃ sn, lookupNode (createTextbookStructure initState "Doc"
      "[PAGE_1]\nChapter 1: A\n1.2 B\n").nodes 2 = some sn ∧
      sn.node_type = "section") ∧
    chapterFindAll (pageTextOf ("Chapter 2: New\n" ++ String.mk (List.replicate 101 'y') ++
      "\n").data) ≠ [] ∧
    sectionFindAll (pageTextOf ("Chapter 2: New\n" ++ String.mk (List.replicate 101 'y') ++
      "\n").data) = [] ∧
    ((processPage 0 2 ("Chapter 2: New\n" ++ String.mk (List.replicate 101 'y') ++ "\n")
        (createTextbookStructure initState "Doc" "[PAGE_1]\nChapter 1: A\n1.2 B\n")
        (some 1) (some 2)).2.2 = some 2 ∧
      ∃ tail, (processPage 0 2 ("Chapter 2: New\n" ++ String.mk (List.replicate 101 'y') ++
          "\n")
          (createTextbookStructure initState "Doc" "[PAGE_1]\nChapter 1: A\n1.2 B\n")
          (some 1) (some 2)).1.nodes.map nodeSig =
          (createTextbookStructure initState "Doc"
            "[PAGE_1]\nChapter 1: A\n1.2 B\n").nodes.map nodeSig ++ tail ∧
        (tail.filter (fun x => x.ntype == "leaf")).map sigBody =
          (((paragraphsOf (pageTextOf ("Chapter 2: New\n" ++
            String.mk (List.replicate 101 'y') ++ "\n").data)).map String.mk).filter
            (fun p => 100 < p.length)).map
            (fun p => ("Content from page " ++ toString 2, some p, "leaf", some 2, [2]))) :=
  ⟨by decide, by decide, by decide, by decide, by decide,
    c5_stale_section_carryover
      (createTextbookStructure initState "Doc" "[PAGE_1]\nChapter 1: A\n1.2 B\n") 0 2 2
      ("Chapter 2: New\n" ++ String.mk (List.replicate 101 'y') ++ "\n") (some 1)
      (by decide) (by decide) (by decide) (by decide) (by decide)⟩

/-- C9: the batch orchestrator is total — no exception escapes it — and
processes each document independently of the others' failures: it returns
one outcome per input path; a path whose file is missing yields exactly the
logged failure record, and every path whose file is present yields a written
record at `<dir>/<stem>_structure.json`, whatever happened to the other
documents.  The hypotheses (fresh ids, resolvable child links) hold for a
fresh processor and are preserved across documents. -/
theorem c9_batch_partial_failure (paths : List String) (fs : FileSystem) (dir : String)
    (st : PState) (hInv : StInv st) (hC : ChildFacts st.nodes) :
    (processTextbooks fs dir paths st).2.length = paths.length ∧
    ∀ i, i < paths.length →
      ((fs (paths.getD i "") = none →
        (processTextbooks fs dir paths st).2.getD i (.failed "") =
          .failed ("Text file " ++ paths.getD i "" ++ " not found.")) ∧
      (∀ c, fs (paths.getD i "") = some c →
        ∃ tr, (processTextbooks fs dir paths st).2.getD i (.failed "") =
          .saved (dir ++ "/" ++ pathStem (paths.getD i "") ++ "_structure.json") tr)) :=
  processTextbooks_spec paths fs dir st hInv hC

/-- C9 witness: three documents with the middle one missing — outcome 0 and
2 are saved records, outcome 1 is the logged failure. -/
theorem c9_batch_partial_failure_witness :
    StInv initState ∧ ChildFacts initState.nodes ∧
    ((processTextbooks
        (fun p => if p = "in/a.txt" || p = "in/c.txt" then some "[PAGE_1]\nChapter 1: A\n"
          else none) "out" ["in/a.txt", "in/b.txt", "in/c.txt"] initState).2.length =
        ["in/a.txt", "in/b.txt", "in/c.txt"].length ∧
    ∀ i, i < ["in/a.txt", "in/b.txt", "in/c.txt"].length →
      (((fun p => if p = "in/a.txt" || p = "in/c.txt" then some "[PAGE_1]\nChapter 1: A\n"
          else none) (["in/a.txt", "in/b.txt", "in/c.txt"].getD i "") = none →
        (processTextbooks
          (fun p => if p = "in/a.txt" || p = "in/c.txt" then some "[PAGE_1]\nChapter 1: A\n"
            else none) "out" ["in/a.txt", "in/b.txt", "in/c.txt"] initState).2.getD i
            (.failed "") =
          .failed ("Text file " ++ ["in/a.txt", "in/b.txt", "in/c.txt"].getD i "" ++
            " not found.")) ∧
      (∀ c, (fun p => if p = "in/a.txt" || p = "in/c.txt" then some "[PAGE_1]\nChapter 1: A\n"
          else none) (["in/a.txt", "in/b.txt", "in/c.txt"].getD i "") = some c →
        ∃ tr, (processTextbooks
          (fun p => if p = "in/a.txt" || p = "in/c.txt" then some "[PAGE_1]\nChapter 1: A\n"
            else none) "out" ["in/a.txt", "in/b.txt", "in/c.txt"] initState).2.getD i
            (.failed "") =
          .saved ("out" ++ "/" ++ pathStem (["in/a.txt", "in/b.txt", "in/c.txt"].getD i "") ++
            "_structure.json") tr))) :=
  ⟨by decide, by decide,
    c9_batch_partial_failure ["in/a.txt", "in/b.txt", "in/c.txt"]
      (fun p => if p = "in/a.txt" || p = "in/c.txt" then some "[PAGE_1]\nChapter 1: A\n"
        else none) "out" initState (by decide) (by decide)⟩
